import Mathlib

/-!
Verification of the incremental frame decoder, document reconciliation
engine and history compactor of the co-authoring workspace.

JavaScript strings are modelled as lists of UTF-16 code units
(`List Nat`); `jstr` injects Lean string literals (all literals used here
lie in the basic multilingual plane, where code point = code unit).
-/

/-- Code units of a Lean string literal, used to write concrete JS strings. -/
def jstr (s : String) : List Nat := s.data.map Char.toNat

/-- The character class of JavaScript's `\s` (and of `String.prototype.trim`). -/
def isWsJs (c : Nat) : Bool :=
  c = 9 || c = 10 || c = 11 || c = 12 || c = 13 || c = 32 || c = 160 ||
  c = 5760 || (8192 ≤ c && c ≤ 8202) || c = 8232 || c = 8233 || c = 8239 ||
  c = 8287 || c = 12288 || c = 65279

/-- JavaScript `String.prototype.trim`: strip `\s` characters from both ends. -/
def trimJs (l : List Nat) : List Nat :=
  ((l.dropWhile isWsJs).reverse.dropWhile isWsJs).reverse

/-- Hex-digit test used by the `\uXXXX` escape (the regex `[0-9a-fA-F]`). -/
def isHexDigit (c : Nat) : Bool :=
  (48 ≤ c && c ≤ 57) || (97 ≤ c && c ≤ 102) || (65 ≤ c && c ≤ 70)

/-- Value of one hex digit, as produced by `Number.parseInt(hex, 16)`. -/
def hexVal (c : Nat) : Nat :=
  if c ≤ 57 then c - 48 else if c ≤ 70 then c - 55 else c - 87

/-- `decodeEscapedChar` of `streaming.ts`: decode the escape following a
backslash.  The list starts at the character after the backslash; `none`
corresponds to the source's `null` (a `\u` escape not followed by four hex
digits), and also covers the caller's own end-of-buffer check. -/
def decodeEscapedChar : List Nat → Option (Nat × List Nat)
  | [] => none
  | d :: rest =>
    if d = 34 || d = 92 || d = 47 then some (d, rest)
    else if d = 98 then some (8, rest)
    else if d = 102 then some (12, rest)
    else if d = 110 then some (10, rest)
    else if d = 114 then some (13, rest)
    else if d = 116 then some (9, rest)
    else if d = 117 then
      match rest with
      | h1 :: h2 :: h3 :: h4 :: rest2 =>
        if isHexDigit h1 && isHexDigit h2 && isHexDigit h3 && isHexDigit h4 then
          some (((hexVal h1 * 16 + hexVal h2) * 16 + hexVal h3) * 16 + hexVal h4, rest2)
        else none
      | _ => none
    else some (d, rest)

/-- Value of a decoded one-character escape (the non-`\u` branches of
`decodeEscapedChar`: `"` `\` `/` map to themselves, `b f n r t` to their
control characters, and any other character to itself). -/
def escCharVal (d : Nat) : Nat :=
  if d = 34 || d = 92 || d = 47 then d
  else if d = 98 then 8
  else if d = 102 then 12
  else if d = 110 then 10
  else if d = 114 then 13
  else if d = 116 then 9
  else d

/-- Value of a `\uXXXX` escape: `Number.parseInt(hex, 16)`. -/
def hex4 (h1 h2 h3 h4 : Nat) : Nat :=
  ((hexVal h1 * 16 + hexVal h2) * 16 + hexVal h3) * 16 + hexVal h4

/-- `parseJsonStringPrefix` of `streaming.ts`: decode a JSON string literal
from the position just after its opening quote, tolerating truncation.
Returns `(value, closed, remaining)`; `remaining` is the buffer after the
consumed part (the source's `nextIndex`; after a failed escape the caller
never consumes it, so the failure branches may return any tail).  The call
to `decodeEscapedChar` is inlined by pattern matching so that the
definition is structurally recursive; `parseJsonStringPrefix_backslash`
below proves the inlining equal to the source's composition. -/
def parseJsonStringPrefix : List Nat → List Nat × Bool × List Nat
  | [] => ([], false, [])
  | c :: rest =>
    if c = 34 then ([], true, rest)
    else if c = 92 then
      match rest with
      | [] => ([], false, [])
      | d :: rest1 =>
        if d = 117 then
          match rest1 with
          | h1 :: h2 :: h3 :: h4 :: rest2 =>
            if isHexDigit h1 && isHexDigit h2 && isHexDigit h3 && isHexDigit h4 then
              let r := parseJsonStringPrefix rest2
              (hex4 h1 h2 h3 h4 :: r.1, r.2.1, r.2.2)
            else ([], false, d :: rest1)
          | _ => ([], false, d :: rest1)
        else
          let r := parseJsonStringPrefix rest1
          (escCharVal d :: r.1, r.2.1, r.2.2)
    else
      let r := parseJsonStringPrefix rest
      (c :: r.1, r.2.1, r.2.2)

/-- The escape handling of `parseJsonStringPrefix` is exactly the source's
call to `decodeEscapedChar`: decode failure stops the parse unclosed, and a
decoded character is prepended to the recursively parsed remainder. -/
theorem parseJsonStringPrefix_backslash (rest : List Nat) :
    parseJsonStringPrefix (92 :: rest) =
      match decodeEscapedChar rest with
      | none => ([], false, if rest = [] then [] else rest)
      | some (v, rest2) =>
        let r := parseJsonStringPrefix rest2
        (v :: r.1, r.2.1, r.2.2) := by
  cases rest with
  | nil => simp [parseJsonStringPrefix, decodeEscapedChar]
  | cons d rest1 =>
    by_cases hu : d = 117
    · subst hu
      match rest1 with
      | [] => simp [parseJsonStringPrefix, decodeEscapedChar]
      | [a] => simp [parseJsonStringPrefix, decodeEscapedChar]
      | [a, b] => simp [parseJsonStringPrefix, decodeEscapedChar]
      | [a, b, c] => simp [parseJsonStringPrefix, decodeEscapedChar]
      | a :: b :: c :: e :: rest2 =>
        by_cases hh : isHexDigit a && isHexDigit b && isHexDigit c && isHexDigit e
        · simp [parseJsonStringPrefix, decodeEscapedChar, hh, hex4]
        · simp [parseJsonStringPrefix, decodeEscapedChar, hh]
    · rw [parseJsonStringPrefix.eq_def]
      simp only [decodeEscapedChar]
      split_ifs <;> simp_all [escCharVal]

/-- First index at which `pat` occurs as a contiguous block, i.e.
JavaScript's `String.prototype.indexOf` (for nonempty `pat`). -/
def indexOfSub (pat : List Nat) : List Nat → Option Nat
  | [] => if pat <+: ([] : List Nat) then some 0 else none
  | c :: t => if pat <+: (c :: t) then some 0 else (indexOfSub pat t).map (· + 1)

/-- One whitespace-skip-then-expect step of the extractors: skip
whitespace, require the character `c` next (an out-of-range read in the
source compares `undefined` and also fails), and return the rest. -/
def expectCh (c : Nat) (l : List Nat) : Option (List Nat) :=
  match l.dropWhile isWsJs with
  | d :: rest => if d = c then some rest else none
  | [] => none

/-- `extractAssistantMessageFromJsonPrefix` of `streaming.ts`: locate the
`"assistant_message"` key, skip whitespace and the colon, skip whitespace
and the opening quote (returning `""` when any of these is absent), then
decode the string prefix. -/
def extractAssistantMessageFromJsonPrefix (l : List Nat) : List Nat :=
  if trimJs l = [] then []
  else
    match indexOfSub (jstr "\"assistant_message\"") l with
    | none => []
    | some p =>
      match expectCh 58 (l.drop (p + (jstr "\"assistant_message\"").length)) with
      | none => []
      | some rest1 =>
        match expectCh 34 rest1 with
        | none => []
        | some rest2 => (parseJsonStringPrefix rest2).1

example : extractAssistantMessageFromJsonPrefix (jstr "\x7b\"assistant_message\": \"Line1\\nLine2\\u4f60\\u597d") = jstr "Line1\nLine2你好" := by decide

example : extractAssistantMessageFromJsonPrefix (jstr "\x7b\"assistant_message\": \"ab\\") = jstr "ab" := by decide

example : extractAssistantMessageFromJsonPrefix (jstr "\x7b\"assistant") = [] := by decide

/-! ### Unfolding equations for `parseJsonStringPrefix` -/

theorem parse_quote (rest : List Nat) :
    parseJsonStringPrefix (34 :: rest) = ([], true, rest) := by
  rw [parseJsonStringPrefix.eq_def]
  simp

theorem parse_ord {c : Nat} (rest : List Nat) (h34 : c ≠ 34) (h92 : c ≠ 92) :
    parseJsonStringPrefix (c :: rest) =
      (c :: (parseJsonStringPrefix rest).1, (parseJsonStringPrefix rest).2) := by
  rw [parseJsonStringPrefix.eq_def]
  simp [h34, h92]

theorem parse_esc_nil : parseJsonStringPrefix [92] = ([], false, []) := by
  rw [parseJsonStringPrefix.eq_def]
  simp

theorem parse_esc_ord {d : Nat} (rest : List Nat) (hd : d ≠ 117) :
    parseJsonStringPrefix (92 :: d :: rest) =
      (escCharVal d :: (parseJsonStringPrefix rest).1, (parseJsonStringPrefix rest).2) := by
  rw [parseJsonStringPrefix.eq_def]
  simp [hd]

theorem parse_u_ok {a b c e : Nat} (rest : List Nat)
    (hh : (isHexDigit a && isHexDigit b && isHexDigit c && isHexDigit e) = true) :
    parseJsonStringPrefix (92 :: 117 :: a :: b :: c :: e :: rest) =
      (hex4 a b c e :: (parseJsonStringPrefix rest).1, (parseJsonStringPrefix rest).2) := by
  rw [parseJsonStringPrefix.eq_def]
  simp [hh]

theorem parse_u_bad {a b c e : Nat} (rest : List Nat)
    (hh : ¬ (isHexDigit a && isHexDigit b && isHexDigit c && isHexDigit e) = true) :
    parseJsonStringPrefix (92 :: 117 :: a :: b :: c :: e :: rest) =
      ([], false, 117 :: a :: b :: c :: e :: rest) := by
  rw [parseJsonStringPrefix.eq_def]
  simp [hh]

theorem parse_u_short (r : List Nat) (h : r.length < 4) :
    parseJsonStringPrefix (92 :: 117 :: r) = ([], false, 117 :: r) := by
  match r with
  | [] => rw [parseJsonStringPrefix.eq_def]; simp
  | [a] => rw [parseJsonStringPrefix.eq_def]; simp
  | [a, b] => rw [parseJsonStringPrefix.eq_def]; simp
  | [a, b, c] => rw [parseJsonStringPrefix.eq_def]; simp
  | a :: b :: c :: e :: rest => simp at h; omega

/-! ### Prefix monotonicity of the decoder -/

theorem prefix_cons_inv {a : Nat} {l1 l2 : List Nat} (h : a :: l1 <+: l2) :
    ∃ t, l2 = a :: t ∧ l1 <+: t := by
  cases l2 with
  | nil => simp at h
  | cons b t =>
    rw [List.cons_prefix_cons] at h
    exact ⟨t, by rw [h.1], h.2⟩

theorem parse_value_mono :
    ∀ (n : Nat) (l1 l2 : List Nat), l1.length ≤ n → l1 <+: l2 →
      (parseJsonStringPrefix l1).1 <+: (parseJsonStringPrefix l2).1 := by
  intro n
  induction n with
  | zero =>
    intro l1 l2 hn _
    have : l1 = [] := List.length_eq_zero.mp (Nat.le_zero.mp hn)
    subst this
    exact List.nil_prefix
  | succ n ih =>
    intro l1 l2 hn h12
    match l1 with
    | [] => exact List.nil_prefix
    | c :: t1 =>
      obtain ⟨t2, rfl, ht⟩ := prefix_cons_inv h12
      by_cases h34 : c = 34
      · subst h34
        rw [parse_quote, parse_quote]
      · by_cases h92 : c = 92
        · subst h92
          match t1 with
          | [] => exact List.nil_prefix
          | d :: r1 =>
            obtain ⟨r2, rfl, hr⟩ := prefix_cons_inv ht
            by_cases hu : d = 117
            · subst hu
              match r1 with
              | a :: b :: c' :: e :: rest1 =>
                obtain ⟨s1, rfl, h1⟩ := prefix_cons_inv hr
                obtain ⟨s2, rfl, h2⟩ := prefix_cons_inv h1
                obtain ⟨s3, rfl, h3⟩ := prefix_cons_inv h2
                obtain ⟨rest2, rfl, h4⟩ := prefix_cons_inv h3
                by_cases hh : (isHexDigit a && isHexDigit b && isHexDigit c' && isHexDigit e) = true
                · rw [parse_u_ok rest1 hh, parse_u_ok rest2 hh]
                  rw [List.cons_prefix_cons]
                  refine ⟨rfl, ih rest1 rest2 ?_ h4⟩
                  simp at hn
                  omega
                · rw [parse_u_bad rest1 hh, parse_u_bad rest2 hh]
              | [] =>
                rw [parse_u_short [] (by simp)]
                exact List.nil_prefix
              | [a] =>
                rw [parse_u_short [a] (by simp)]
                exact List.nil_prefix
              | [a, b] =>
                rw [parse_u_short [a, b] (by simp)]
                exact List.nil_prefix
              | [a, b, c'] =>
                rw [parse_u_short [a, b, c'] (by simp)]
                exact List.nil_prefix
            · rw [parse_esc_ord r1 hu, parse_esc_ord r2 hu]
              rw [List.cons_prefix_cons]
              refine ⟨rfl, ih r1 r2 ?_ hr⟩
              simp at hn
              omega
        · rw [parse_ord t1 h34 h92, parse_ord t2 h34 h92]
          rw [List.cons_prefix_cons]
          refine ⟨rfl, ih t1 t2 ?_ ht⟩
          simp at hn
          omega

theorem trimJs_eq_nil_iff (l : List Nat) : trimJs l = [] ↔ ∀ c ∈ l, isWsJs c := by
  unfold trimJs
  rw [List.reverse_eq_nil_iff, List.dropWhile_eq_nil_iff]
  constructor
  · intro h c hc
    have hsplit := List.takeWhile_append_dropWhile (p := isWsJs) (l := l)
    rw [← hsplit] at hc
    rcases List.mem_append.mp hc with hm | hm
    · exact List.mem_takeWhile_imp hm
    · exact h c (List.mem_reverse.mpr hm)
  · intro h
    have : l.dropWhile isWsJs = [] := List.dropWhile_eq_nil_iff.mpr h
    simp [this]

theorem trimJs_ne_nil_of_pref {b1 b2 : List Nat} (h12 : b1 <+: b2)
    (h : trimJs b1 ≠ []) : trimJs b2 ≠ [] := by
  intro h2
  exact h ((trimJs_eq_nil_iff b1).mpr fun c hc =>
    (trimJs_eq_nil_iff b2).mp h2 c (h12.sublist.subset hc))

theorem indexOfSub_eq_some_iff (pat : List Nat) :
    ∀ (l : List Nat) (p : Nat), indexOfSub pat l = some p ↔
      (pat <+: l.drop p ∧ ∀ q < p, ¬ pat <+: l.drop q) := by
  intro l
  induction l with
  | nil =>
    intro p
    unfold indexOfSub
    split_ifs with hp
    · constructor
      · intro h
        simp at h
        subst h
        exact ⟨hp, by omega⟩
      · intro ⟨_, hmin⟩
        by_contra hne
        have hp0 : p ≠ 0 := fun h0 => hne (by rw [h0])
        exact hmin 0 (by omega) hp
    · constructor
      · intro h
        simp at h
      · intro ⟨hocc, _⟩
        rw [List.drop_nil] at hocc
        exact absurd hocc hp
  | cons c t ih =>
    intro p
    unfold indexOfSub
    split_ifs with hp
    · constructor
      · intro h
        simp at h
        subst h
        exact ⟨hp, by omega⟩
      · intro ⟨_, hmin⟩
        by_contra hne
        have hp0 : p ≠ 0 := fun h0 => hne (by rw [h0])
        exact hmin 0 (by omega) hp
    · constructor
      · intro h
        simp only [Option.map_eq_some'] at h
        obtain ⟨p', hp', rfl⟩ := h
        obtain ⟨hocc, hmin⟩ := (ih p').mp hp'
        refine ⟨by simpa using hocc, ?_⟩
        intro q hq
        match q with
        | 0 => simpa using hp
        | q' + 1 =>
          have := hmin q' (by omega)
          simpa using this
      · intro ⟨hocc, hmin⟩
        match p with
        | 0 => exact absurd (by simpa using hocc) hp
        | p' + 1 =>
          have hocc' : pat <+: t.drop p' := by simpa using hocc
          have hmin' : ∀ q < p', ¬ pat <+: t.drop q := by
            intro q hq hcon
            exact hmin (q + 1) (by omega) (by simpa using hcon)
          simp [(ih p').mpr ⟨hocc', hmin'⟩]

theorem indexOfSub_eq_none_iff (pat : List Nat) :
    ∀ l : List Nat, indexOfSub pat l = none → ∀ p, ¬ pat <+: l.drop p := by
  intro l
  induction l with
  | nil =>
    intro h p
    unfold indexOfSub at h
    split_ifs at h with hp
    rw [List.drop_nil]
    exact hp
  | cons c t ih =>
    intro h p
    unfold indexOfSub at h
    split_ifs at h with hp
    rw [Option.map_eq_none'] at h
    cases p with
    | zero => exact hp
    | succ q => exact ih h q

theorem indexOfSub_pref {pat b1 b2 : List Nat} {p : Nat} (hpat : pat ≠ [])
    (h12 : b1 <+: b2) (h : indexOfSub pat b1 = some p) :
    indexOfSub pat b2 = some p := by
  obtain ⟨hocc, hmin⟩ := (indexOfSub_eq_some_iff pat b1 p).mp h
  have hple : p + pat.length ≤ b1.length := by
    have h1 := hocc.length_le
    rw [List.length_drop] at h1
    by_contra hgt
    push_neg at hgt
    have : pat.length = 0 := by omega
    exact hpat (List.length_eq_zero.mp this)
  refine (indexOfSub_eq_some_iff pat b2 p).mpr ⟨hocc.trans (h12.drop p), ?_⟩
  intro q hq hcon
  refine hmin q hq ?_
  refine List.prefix_of_prefix_length_le hcon (h12.drop q) ?_
  rw [List.length_drop]
  omega

theorem dropWhile_prefix_cases (p : Nat → Bool) :
    ∀ {l1 l2 : List Nat}, l1 <+: l2 →
      l1.dropWhile p = [] ∨
        (l1.dropWhile p).head? = (l2.dropWhile p).head? ∧
          l1.dropWhile p <+: l2.dropWhile p := by
  intro l1
  induction l1 with
  | nil =>
    intro l2 _
    exact Or.inl rfl
  | cons c t ih =>
    intro l2 h
    obtain ⟨t2, rfl, ht⟩ := prefix_cons_inv h
    by_cases hc : p c
    · simpa [List.dropWhile_cons, hc] using ih ht
    · simp [List.dropWhile_cons, hc, ht]

theorem expectCh_prefix_cases (c : Nat) {l1 l2 : List Nat} (h : l1 <+: l2) :
    expectCh c l1 = none ∨
      ∃ r1 r2, expectCh c l1 = some r1 ∧ expectCh c l2 = some r2 ∧ r1 <+: r2 := by
  rcases dropWhile_prefix_cases isWsJs h with hnil | ⟨hhead, hpre⟩
  · left
    simp [expectCh, hnil]
  · cases hd1 : l1.dropWhile isWsJs with
    | nil => left; simp [expectCh, hd1]
    | cons d r1 =>
      rw [hd1] at hhead hpre
      cases hd2 : l2.dropWhile isWsJs with
      | nil => rw [hd2] at hhead; simp at hhead
      | cons d2 r2 =>
        rw [hd2] at hhead hpre
        simp only [List.head?_cons, Option.some.injEq] at hhead
        subst hhead
        rw [List.cons_prefix_cons] at hpre
        by_cases hdc : d = c
        · right
          exact ⟨r1, r2, by simp [expectCh, hd1, hdc], by simp [expectCh, hd2, hdc], hpre.2⟩
        · left
          simp [expectCh, hd1, hdc]

theorem extractAssistantMessage_mono {b1 b2 : List Nat} (h12 : b1 <+: b2) :
    extractAssistantMessageFromJsonPrefix b1 <+: extractAssistantMessageFromJsonPrefix b2 := by
  unfold extractAssistantMessageFromJsonPrefix
  by_cases htrim : trimJs b1 = []
  · simp [htrim, List.nil_prefix]
  · rw [if_neg htrim, if_neg (trimJs_ne_nil_of_pref h12 htrim)]
    cases hidx : indexOfSub (jstr "\"assistant_message\"") b1 with
    | none => exact List.nil_prefix
    | some p =>
      rw [indexOfSub_pref (by decide) h12 hidx]
      simp only
      rcases expectCh_prefix_cases 58 (h12.drop (p + (jstr "\"assistant_message\"").length)) with
        hnone | ⟨r1, r2, he1, he2, hr⟩
      · rw [hnone]
        exact List.nil_prefix
      · rw [he1, he2]
        show (match expectCh 34 r1 with
              | none => []
              | some rest2 => (parseJsonStringPrefix rest2).1) <+:
            (match expectCh 34 r2 with
              | none => []
              | some rest2 => (parseJsonStringPrefix rest2).1)
        rcases expectCh_prefix_cases 34 hr with hnone2 | ⟨s1, s2, hf1, hf2, hs⟩
        · rw [hnone2]
          exact List.nil_prefix
        · rw [hf1, hf2]
          exact parse_value_mono s1.length s1 s2 le_rfl hs

/-! ### Decoding a completely received payload -/

/-- Character of the hex digit `d` (lowercase), for the reference JSON
encoder below. -/
def hexDigitChar (d : Nat) : Nat := if d < 10 then 48 + d else 87 + d

/-- Reference JSON encoding of one UTF-16 code unit of a string value:
quote and backslash are escaped, control characters use `\uXXXX`, and
everything else stands for itself. -/
def encodeJsonChar (c : Nat) : List Nat :=
  if c = 34 then [92, 34]
  else if c = 92 then [92, 92]
  else if c < 32 then
    [92, 117, hexDigitChar (c / 4096 % 16), hexDigitChar (c / 256 % 16),
      hexDigitChar (c / 16 % 16), hexDigitChar (c % 16)]
  else [c]

/-- Reference JSON encoding of a string value (without the quotes). -/
def encodeJsonString : List Nat → List Nat
  | [] => []
  | c :: rest => encodeJsonChar c ++ encodeJsonString rest

theorem isHexDigit_hexDigitChar {d : Nat} (h : d < 16) :
    isHexDigit (hexDigitChar d) = true := by
  interval_cases d <;> decide

theorem hexVal_hexDigitChar {d : Nat} (h : d < 16) :
    hexVal (hexDigitChar d) = d := by
  interval_cases d <;> decide

/-- `parseJsonStringPrefix` inverts the reference JSON string encoder: on
`enc(msg) ++ '"' ++ rest` it recovers exactly `msg`, reports the string
closed, and leaves `rest`. -/
theorem parse_encode (msg rest : List Nat) :
    parseJsonStringPrefix (encodeJsonString msg ++ 34 :: rest) = (msg, true, rest) := by
  induction msg with
  | nil =>
    simp only [encodeJsonString, List.nil_append]
    exact parse_quote rest
  | cons c m ih =>
    simp only [encodeJsonString, List.append_assoc]
    unfold encodeJsonChar
    split_ifs with h34 h92 hctl
    · subst h34
      simp only [List.cons_append, List.nil_append]
      rw [parse_esc_ord _ (by omega), ih]
      simp [escCharVal]
    · subst h92
      simp only [List.cons_append, List.nil_append]
      rw [parse_esc_ord _ (by omega), ih]
      simp [escCharVal]
    · simp only [List.cons_append, List.nil_append]
      rw [parse_u_ok _ (by
        simp [isHexDigit_hexDigitChar (Nat.mod_lt _ (by omega)),
          isHexDigit_hexDigitChar (Nat.mod_lt _ (by omega))]), ih]
      simp only [Prod.mk.injEq, and_true, List.cons.injEq, and_self]
      unfold hex4
      rw [hexVal_hexDigitChar (Nat.mod_lt _ (by omega)),
        hexVal_hexDigitChar (Nat.mod_lt _ (by omega)),
        hexVal_hexDigitChar (Nat.mod_lt _ (by omega)),
        hexVal_hexDigitChar (Nat.mod_lt _ (by omega))]
      omega
    · simp only [List.cons_append, List.nil_append]
      rw [parse_ord _ (by omega) (by omega), ih]

theorem dropWhile_append_all {p : Nat → Bool} {ws : List Nat} (l : List Nat)
    (h : ∀ x ∈ ws, p x) : (ws ++ l).dropWhile p = l.dropWhile p := by
  induction ws with
  | nil => rfl
  | cons c t ih =>
    simp only [List.cons_append, List.dropWhile_cons, h c (by simp)]
    exact ih fun x hx => h x (by simp [hx])

theorem expectCh_ws {c : Nat} {ws : List Nat} (l : List Nat)
    (hws : ∀ x ∈ ws, isWsJs x) (hc : isWsJs c = false) :
    expectCh c (ws ++ c :: l) = some l := by
  unfold expectCh
  rw [dropWhile_append_all _ hws, List.dropWhile_cons]
  simp [hc]

/-- Full-payload correctness of the message extractor: on a payload whose
`"assistant_message"` key first occurs right after `pre` and whose value is
the JSON encoding of `msg`, the extractor returns exactly `msg`. -/
theorem extractAssistantMessage_complete (pre ws1 ws2 msg rest : List Nat)
    (hidx : indexOfSub (jstr "\"assistant_message\"")
      ((pre ++ jstr "\"assistant_message\"") ++
        (ws1 ++ (58 :: (ws2 ++ (34 :: (encodeJsonString msg ++ (34 :: rest))))))) =
        some pre.length)
    (hws1 : ∀ c ∈ ws1, isWsJs c) (hws2 : ∀ c ∈ ws2, isWsJs c) :
    extractAssistantMessageFromJsonPrefix
      ((pre ++ jstr "\"assistant_message\"") ++
        (ws1 ++ (58 :: (ws2 ++ (34 :: (encodeJsonString msg ++ (34 :: rest))))))) = msg := by
  unfold extractAssistantMessageFromJsonPrefix
  rw [if_neg, hidx]
  · simp only
    have hlen : pre.length + (jstr "\"assistant_message\"").length =
        (pre ++ jstr "\"assistant_message\"").length := by
      simp
    rw [hlen, List.drop_left]
    rw [expectCh_ws _ hws1 (by decide)]
    show (match expectCh 34 (ws2 ++ (34 :: (encodeJsonString msg ++ (34 :: rest)))) with
          | none => []
          | some rest2 => (parseJsonStringPrefix rest2).1) = msg
    rw [expectCh_ws _ hws2 (by decide)]
    show (parseJsonStringPrefix (encodeJsonString msg ++ (34 :: rest))).1 = msg
    rw [parse_encode]
  · intro hca
    have h58 : (58 : Nat) ∈ (pre ++ jstr "\"assistant_message\"") ++
        (ws1 ++ (58 :: (ws2 ++ (34 :: (encodeJsonString msg ++ (34 :: rest)))))) := by
      simp
    have := (trimJs_eq_nil_iff _).mp hca 58 h58
    simp [isWsJs] at this

/-! ### The board-action list extractor -/

theorem parse_rest_length :
    ∀ (n : Nat) (l : List Nat), l.length ≤ n →
      (parseJsonStringPrefix l).2.2.length ≤ l.length := by
  intro n
  induction n with
  | zero =>
    intro l hn
    have : l = [] := List.length_eq_zero.mp (Nat.le_zero.mp hn)
    subst this
    simp [parseJsonStringPrefix]
  | succ n ih =>
    intro l hn
    match l with
    | [] => simp [parseJsonStringPrefix]
    | c :: t1 =>
      by_cases h34 : c = 34
      · subst h34
        rw [parse_quote]
        simp
      · by_cases h92 : c = 92
        · subst h92
          match t1 with
          | [] =>
            rw [parse_esc_nil]
            simp
          | d :: r1 =>
            by_cases hu : d = 117
            · subst hu
              match r1 with
              | a :: b :: c' :: e :: rest1 =>
                by_cases hh : (isHexDigit a && isHexDigit b && isHexDigit c' && isHexDigit e) = true
                · rw [parse_u_ok rest1 hh]
                  have := ih rest1 (by simp at hn; omega)
                  simp at this ⊢
                  omega
                · rw [parse_u_bad rest1 hh]
                  simp
              | [] => rw [parse_u_short [] (by simp)]; simp
              | [a] => rw [parse_u_short [a] (by simp)]; simp
              | [a, b] => rw [parse_u_short [a, b] (by simp)]; simp
              | [a, b, c'] => rw [parse_u_short [a, b, c'] (by simp)]; simp
            · rw [parse_esc_ord r1 hu]
              have := ih r1 (by simp at hn; omega)
              simp at this ⊢
              omega
        · rw [parse_ord t1 h34 h92]
          have := ih t1 (by simp at hn; omega)
          simp at this ⊢
          omega

/-- One candidate board-action object, as assembled field-by-field by the
streaming extractor (`Partial<AgentBoardAction>` in the source); `none`
fields are absent. -/
structure BoardActionObj where
  action : Option (List Nat) := none
  template_type : Option (List Nat) := none
  section_id : Option (List Nat) := none
  section_title : Option (List Nat) := none
  content : Option (List Nat) := none
deriving DecidableEq

/-- `normalizeAction` of `streaming.ts`: keep only the five recognized
action discriminators. -/
def normalizeAction (value : List Nat) : Option (List Nat) :=
  if value = jstr "create_structure" || value = jstr "update_section" ||
      value = jstr "append_section" || value = jstr "clear_section" ||
      value = jstr "set_template" then
    some value
  else none

/-- `normalizeTemplateType` of `streaming.ts`. -/
def normalizeTemplateType (value : List Nat) : Option (List Nat) :=
  if value = jstr "document" || value = jstr "table" || value = jstr "code" then
    some value
  else none

/-- `setPartialActionField` of `streaming.ts`. -/
def setPartialActionField (a : BoardActionObj) (key value : List Nat) : BoardActionObj :=
  if key = jstr "action" then
    match normalizeAction value with
    | some v => { a with action := some v }
    | none => a
  else if key = jstr "template_type" then
    match normalizeTemplateType value with
    | some v => { a with template_type := some v }
    | none => a
  else if key = jstr "section_id" then { a with section_id := some value }
  else if key = jstr "section_title" then { a with section_title := some value }
  else if key = jstr "content" then { a with content := some value }
  else a

/-- The raw (non-string) value scan of the partial-action field loop:
take characters up to the next `,` or `}` and trim them. -/
def rawValueOf (c3 : Nat) (rest3 : List Nat) : List Nat :=
  trimJs ((c3 :: rest3).takeWhile (fun x => x ≠ 44 && x ≠ 125))

/-- The buffer left after the raw value scan (positioned on the `,`, the
`}`, or the end). -/
def restAfterRaw (c3 : Nat) (rest3 : List Nat) : List Nat :=
  (c3 :: rest3).dropWhile (fun x => x ≠ 44 && x ≠ 125)

/-- Record a nonempty raw value under `key` (`if (rawValue) set...`). -/
def accAfterRaw (acc : BoardActionObj) (key : List Nat) (c3 : Nat) (rest3 : List Nat) :
    BoardActionObj :=
  if rawValueOf c3 rest3 ≠ [] then setPartialActionField acc key (rawValueOf c3 rest3) else acc

/-- The field loop of `extractPartialActionFromObjectPrefix` of
`streaming.ts`, starting just after the opening `{`: skip whitespace, skip
commas, stop at `}` or a malformed key, parse `"key"`, the colon and either
a string value (decoded and recorded even if unterminated) or a raw
non-string value (trimmed, recorded if nonempty). -/
def parsePartialFields (l : List Nat) (acc : BoardActionObj) : BoardActionObj :=
  match h1 : l.dropWhile isWsJs with
  | [] => acc
  | c :: rest =>
    if c = 44 then parsePartialFields rest acc
    else if c = 125 then acc
    else if c ≠ 34 then acc
    else
      match h2 : parseJsonStringPrefix rest with
      | (key, kClosed, rem1) =>
        if ¬ kClosed then acc
        else
          match h3 : rem1.dropWhile isWsJs with
          | [] => acc
          | c2 :: rest2 =>
            if c2 ≠ 58 then acc
            else
              match h4 : rest2.dropWhile isWsJs with
              | [] => acc
              | c3 :: rest3 =>
                if c3 = 34 then
                  match h5 : parseJsonStringPrefix rest3 with
                  | (v, vClosed, rem3) =>
                    if ¬ vClosed then setPartialActionField acc key v
                    else parsePartialFields rem3 (setPartialActionField acc key v)
                else
                  match h6 : restAfterRaw c3 rest3 with
                  | 125 :: _ => accAfterRaw acc key c3 rest3
                  | [] => accAfterRaw acc key c3 rest3
                  | x :: xs => parsePartialFields (x :: xs) (accAfterRaw acc key c3 rest3)
termination_by l.length
decreasing_by
  · have e1 : (c :: rest).length ≤ l.length := by
      rw [← h1]
      exact (List.dropWhile_suffix isWsJs).sublist.length_le
    simp at e1
    omega
  · have e1 : (c :: rest).length ≤ l.length := by
      rw [← h1]
      exact (List.dropWhile_suffix isWsJs).sublist.length_le
    have e2 : rem1.length ≤ rest.length := by
      have := parse_rest_length rest.length rest le_rfl
      rw [h2] at this
      exact this
    have e3 : (c2 :: rest2).length ≤ rem1.length := by
      rw [← h3]
      exact (List.dropWhile_suffix isWsJs).sublist.length_le
    have e4 : (c3 :: rest3).length ≤ rest2.length := by
      rw [← h4]
      exact (List.dropWhile_suffix isWsJs).sublist.length_le
    have e5 : rem3.length ≤ rest3.length := by
      have := parse_rest_length rest3.length rest3 le_rfl
      rw [h5] at this
      exact this
    simp at e1 e3 e4
    omega
  · have e1 : (c :: rest).length ≤ l.length := by
      rw [← h1]
      exact (List.dropWhile_suffix isWsJs).sublist.length_le
    have e2 : rem1.length ≤ rest.length := by
      have := parse_rest_length rest.length rest le_rfl
      rw [h2] at this
      exact this
    have e3 : (c2 :: rest2).length ≤ rem1.length := by
      rw [← h3]
      exact (List.dropWhile_suffix isWsJs).sublist.length_le
    have e4 : (c3 :: rest3).length ≤ rest2.length := by
      rw [← h4]
      exact (List.dropWhile_suffix isWsJs).sublist.length_le
    have e5 : (x :: xs).length ≤ (c3 :: rest3).length := by
      rw [← h6]
      exact (List.dropWhile_suffix _).sublist.length_le
    simp at e1 e3 e4 e5
    simp only [List.length_cons]
    omega

/-- Append one character to the snippet being accumulated, if one is open
(`objectStart >= 0` in the source; index-based slices become explicit
accumulation here). -/
def pushCur (cur : Option (List Nat)) (c : Nat) : Option (List Nat) :=
  cur.map (fun a => a ++ [c])

/-- The scanning loop of `extractBoardActionsFromJsonPrefix` of
`streaming.ts`, starting just after the `[` of `"board_actions"`.  Tracks
string state, escape state, brace depth and the currently open top-level
object; returns the list of closed top-level object snippets and the
trailing unterminated object snippet (`[]` when none). -/
def scanActionList : List Nat → Bool → Bool → Nat → Option (List Nat) →
    List (List Nat) × List Nat
  | [], _, _, depth, cur =>
    ([], match depth, cur with
         | _ + 1, some a => a
         | _, _ => [])
  | c :: rest, inString, esc, depth, cur =>
    if inString then
      let cur2 := pushCur cur c
      if esc then scanActionList rest true false depth cur2
      else if c = 92 then scanActionList rest true true depth cur2
      else if c = 34 then scanActionList rest false false depth cur2
      else scanActionList rest true false depth cur2
    else if c = 34 then scanActionList rest true false depth (pushCur cur c)
    else if c = 123 then
      if depth = 0 then scanActionList rest false false 1 (some [c])
      else scanActionList rest false false (depth + 1) (pushCur cur c)
    else if c = 125 then
      match depth, cur with
      | 0, _ => scanActionList rest false false 0 cur
      | 1, some a =>
        let r := scanActionList rest false false 0 none
        ((a ++ [c]) :: r.1, r.2)
      | 1, none => scanActionList rest false false 0 none
      | d + 2, _ => scanActionList rest false false (d + 1) (pushCur cur c)
    else if c = 93 && depth = 0 then ([], [])
    else scanActionList rest false false depth (pushCur cur c)

/-- `extractPartialActionFromObjectPrefix` of `streaming.ts`: require the
first non-whitespace character to be `{` (so `indexOf("{") + 1` is the
position right after it), run the field loop, and return the assembled
object only when it carries a recognized action discriminator. -/
def extractPartialActionFromObjectPrefix (l : List Nat) : Option BoardActionObj :=
  match trimJs l with
  | 123 :: _ =>
    if (parsePartialFields (l.dropWhile isWsJs).tail {}).action = none then none
    else some (parsePartialFields (l.dropWhile isWsJs).tail {})
  | _ => none

/-- The `typeof parsed.action === "string"` filter applied to each closed
snippet after `JSON.parse` (`jsonParse` models the builtin parser: `none`
is a thrown exception or a non-object result). -/
def keepParsedAction (jsonParse : List Nat → Option BoardActionObj)
    (s : List Nat) : Option BoardActionObj :=
  match jsonParse s with
  | none => none
  | some o =>
    match o.action with
    | some _ => some o
    | none => none

/-- The preamble of `extractBoardActionsFromJsonPrefix` of `streaming.ts`:
locate the `"board_actions"` key, skip whitespace and the colon, skip
whitespace and the `[`; `none` makes the extractor return `[]`. -/
def boardActionsListStart (l : List Nat) : Option (List Nat) :=
  if trimJs l = [] then none
  else
    match indexOfSub (jstr "\"board_actions\"") l with
    | none => none
    | some p =>
      match expectCh 58 (l.drop (p + (jstr "\"board_actions\"").length)) with
      | none => none
      | some rest1 => expectCh 91 rest1

/-- `extractBoardActionsFromJsonPrefix` of `streaming.ts`: after the
preamble, scan the list for closed and trailing-open top-level objects,
keep the closed ones that parse to an object with a string `action`
(`parsedActions.push` inside the `for`/`try` loop), and append the
best-effort trailing partial action when present. -/
def extractBoardActionsFromJsonPrefix (jsonParse : List Nat → Option BoardActionObj)
    (l : List Nat) : List BoardActionObj :=
  match boardActionsListStart l with
  | none => []
  | some rest2 =>
    match extractPartialActionFromObjectPrefix (scanActionList rest2 false false 0 none).2 with
    | some a =>
      (scanActionList rest2 false false 0 none).1.foldl (fun acc s =>
        match keepParsedAction jsonParse s with
        | some o => acc ++ [o]
        | none => acc) [] ++ [a]
    | none =>
      (scanActionList rest2 false false 0 none).1.foldl (fun acc s =>
        match keepParsedAction jsonParse s with
        | some o => acc ++ [o]
        | none => acc) []

/-- An action discriminator that `normalizeAction` recognizes. -/
def actionRecognized (o : Option (List Nat)) : Prop :=
  ∃ v, o = some v ∧ normalizeAction v = some v

theorem foldl_keep_eq_filterMap (jp : List Nat → Option BoardActionObj)
    (ss : List (List Nat)) (acc : List BoardActionObj) :
    ss.foldl (fun acc s =>
        match keepParsedAction jp s with
        | some o => acc ++ [o]
        | none => acc) acc = acc ++ ss.filterMap (keepParsedAction jp) := by
  induction ss generalizing acc with
  | nil => simp
  | cons s t ih =>
    rw [List.foldl_cons, List.filterMap_cons]
    cases h : keepParsedAction jp s with
    | none => simp only [h]; exact ih acc
    | some o => simp only [h, ih (acc ++ [o]), List.append_assoc, List.singleton_append]

theorem setPartialActionField_action (a : BoardActionObj) (k v : List Nat) :
    (setPartialActionField a k v).action = a.action ∨
      actionRecognized (setPartialActionField a k v).action := by
  unfold setPartialActionField
  split_ifs with h1 h2 h3 h4 h5
  · cases hn : normalizeAction v with
    | none => left; rfl
    | some w =>
      right
      have hw : w = v := by
        unfold normalizeAction at hn
        split_ifs at hn
        simpa using hn.symm
      subst hw
      refine ⟨w, rfl, ?_⟩
      unfold normalizeAction at hn ⊢
      split_ifs at hn with hcond
      simp [hcond]
  · cases hn : normalizeTemplateType v with
    | none => left; rfl
    | some w => left; rfl
  · left; rfl
  · left; rfl
  · left; rfl
  · left; rfl



theorem accAfterRaw_action (acc : BoardActionObj) (key : List Nat) (c3 : Nat)
    (rest3 : List Nat) (h : acc.action = none ∨ actionRecognized acc.action) :
    (accAfterRaw acc key c3 rest3).action = none ∨
      actionRecognized (accAfterRaw acc key c3 rest3).action := by
  unfold accAfterRaw
  split_ifs with hr
  · rcases setPartialActionField_action acc key (rawValueOf c3 rest3) with hs | hrec
    · rw [hs]; exact h
    · right; exact hrec
  · exact h

theorem parsePartialFields_action_invariant :
    ∀ (n : Nat) (l : List Nat) (acc : BoardActionObj), l.length ≤ n →
      (acc.action = none ∨ actionRecognized acc.action) →
      ((parsePartialFields l acc).action = none ∨
        actionRecognized (parsePartialFields l acc).action) := by
  intro n
  induction n with
  | zero =>
    intro l acc hn h
    have : l = [] := List.length_eq_zero.mp (Nat.le_zero.mp hn)
    subst this
    rw [parsePartialFields.eq_def]
    exact h
  | succ n ih =>
    intro l acc hn h
    rw [parsePartialFields.eq_def]
    split
    · exact h
    · rename_i c rest h1
      have hcr : rest.length + 1 ≤ l.length := by
        have h2 := (List.dropWhile_suffix isWsJs (l := l)).sublist.length_le
        rw [h1] at h2
        simpa using h2
      by_cases hc : c = 44
      · rw [if_pos hc]
        exact ih rest acc (by omega) h
      · rw [if_neg hc]
        by_cases hbr : c = 125
        · rw [if_pos hbr]
          exact h
        · rw [if_neg hbr]
          by_cases hq : c = 34
          · rw [if_neg (not_not_intro hq)]
            split
            rename_i key kClosed rem1 h2
            have hrem1 : rem1.length ≤ rest.length := by
              have hp := parse_rest_length rest.length rest le_rfl
              rw [h2] at hp
              exact hp
            by_cases hkc : kClosed = true
            · rw [if_neg (not_not_intro hkc)]
              split
              · exact h
              · rename_i c2 rest2 h3
                have hr2 : rest2.length + 1 ≤ rem1.length := by
                  have h5 := (List.dropWhile_suffix isWsJs (l := rem1)).sublist.length_le
                  rw [h3] at h5
                  simpa using h5
                by_cases hc2 : c2 = 58
                · rw [if_neg (not_not_intro hc2)]
                  split
                  · exact h
                  · rename_i c3 rest3 h4
                    have hr3 : rest3.length + 1 ≤ rest2.length := by
                      have h5 := (List.dropWhile_suffix isWsJs (l := rest2)).sublist.length_le
                      rw [h4] at h5
                      simpa using h5
                    by_cases hc3 : c3 = 34
                    · rw [if_pos hc3]
                      split
                      rename_i v vClosed rem3 h5
                      have hrem3 : rem3.length ≤ rest3.length := by
                        have hp := parse_rest_length rest3.length rest3 le_rfl
                        rw [h5] at hp
                        exact hp
                      have hacc2 : (setPartialActionField acc key v).action = none ∨
                          actionRecognized (setPartialActionField acc key v).action := by
                        rcases setPartialActionField_action acc key v with hs | hrec
                        · rw [hs]; exact h
                        · right; exact hrec
                      by_cases hvc : vClosed = true
                      · rw [if_neg (not_not_intro hvc)]
                        exact ih rem3 _ (by omega) hacc2
                      · rw [if_pos hvc]
                        exact hacc2
                    · rw [if_neg hc3]
                      have haccr := accAfterRaw_action acc key c3 rest3 h
                      split
                      · exact haccr
                      · exact haccr
                      · rename_i h6
                        have h7 := (List.dropWhile_suffix
                          (fun y : Nat => y ≠ 44 && y ≠ 125) (l := c3 :: rest3)).sublist.length_le
                        have hb : (restAfterRaw c3 rest3).length ≤ rest3.length + 1 := by
                          simpa [restAfterRaw] using h7
                        rw [h6] at hb
                        simp only [List.length_cons] at hb
                        exact ih _ _ (by simp only [List.length_cons]; omega) haccr
                · rw [if_pos hc2]
                  exact h
            · rw [if_pos hkc]
              exact h
          · rw [if_pos hq]
            exact h

/-- Any partial action surfaced from a trailing open object carries one of
the five recognized action discriminators. -/
theorem extractPartialAction_recognized {l : List Nat} {a : BoardActionObj}
    (h : extractPartialActionFromObjectPrefix l = some a) :
    actionRecognized a.action := by
  unfold extractPartialActionFromObjectPrefix at h
  split at h
  · split_ifs at h with hnone
    rcases parsePartialFields_action_invariant
        ((l.dropWhile isWsJs).tail).length _ {} le_rfl (Or.inl rfl) with hn | hr
    · exact absurd hn hnone
    · simp only [Option.some.injEq] at h
      rw [← h]
      exact hr
  · exact absurd h (by simp)

/-! ## The document reconciliation engine (`workspaceCore.ts`)

The two browser builtins the engine calls — the DOM-based text extraction
inside `htmlToPlainText` and the DOM-based `sanitizeHtml` — are passed as
explicit function parameters `domText` and `sanitize`; everything else is
translated directly. -/

/-- `replace(/\s+/g, " ")`: collapse every whitespace run to one space.
The flag tracks whether the previous character was whitespace. -/
def collapseWs : List Nat → Bool → List Nat
  | [], _ => []
  | c :: rest, prevWs =>
    if isWsJs c then
      if prevWs then collapseWs rest true else 32 :: collapseWs rest true
    else c :: collapseWs rest false

/-- `toLowerCase`, restricted to the ASCII simple case mapping (the title
keys compared with it are ASCII or CJK, which has no case). -/
def toLowerJs (l : List Nat) : List Nat :=
  l.map fun c => if 65 ≤ c && c ≤ 90 then c + 32 else c

/-- ASCII letter, for the `[a-z]` class under the `i` flag. -/
def isAsciiLetter (c : Nat) : Bool :=
  (65 ≤ c && c ≤ 90) || (97 ≤ c && c ≤ 122)

/-- The `[\w-]` class: word characters and the dash. -/
def isWordDash (c : Nat) : Bool :=
  isAsciiLetter c || (48 ≤ c && c ≤ 57) || c = 95 || c = 45

/-- Decimal digit, for the `\d` class. -/
def isDigitJs (c : Nat) : Bool := 48 ≤ c && c ≤ 57

/-- Whether `HTML_TAG_PATTERN`'s body matches right after a `<`: a letter,
a maximal `[\w-]*` run, then either `>` directly or whitespace followed by
`[^>]*>` (i.e. some later `>`). -/
def tagFrom : List Nat → Bool
  | [] => false
  | c :: rest =>
    isAsciiLetter c &&
      match rest.dropWhile isWordDash with
      | 62 :: _ => true
      | d :: after => isWsJs d && after.contains 62
      | [] => false

/-- `HTML_TAG_PATTERN.test`: the regex `/<([a-z][\w-]*)(\s[^>]*)?>/i`
matches somewhere in the string. -/
def htmlTagTest : List Nat → Bool
  | [] => false
  | c :: rest => (c = 60 && tagFrom rest) || htmlTagTest rest

/-- `escapeHtml` of `workspaceCore.ts` (the five sequential global
replaces are equivalent to this single character map, since the ampersands
introduced by the later replacements are not rescanned). -/
def escapeHtml : List Nat → List Nat
  | [] => []
  | c :: r =>
    (if c = 38 then jstr "&amp;"
     else if c = 60 then jstr "&lt;"
     else if c = 62 then jstr "&gt;"
     else if c = 34 then jstr "&quot;"
     else if c = 39 then jstr "&#39;"
     else [c]) ++ escapeHtml r

/-- `replace(/\n/g, "<br />")` applied after escaping. -/
def nlToBr : List Nat → List Nat
  | [] => []
  | c :: r => (if c = 10 then jstr "<br />" else [c]) ++ nlToBr r

/-- `toHtmlSegment` of `workspaceCore.ts`. -/
def toHtmlSegment (sanitize : List Nat → List Nat) (value : List Nat) : List Nat :=
  if trimJs value = [] then []
  else if htmlTagTest (trimJs value) then sanitize value
  else jstr "<p>" ++ nlToBr (escapeHtml value) ++ jstr "</p>"

/-- `appendBoardContent` of `workspaceCore.ts`. -/
def appendBoardContent (sanitize : List Nat → List Nat) (existing addition : List Nat) :
    List Nat :=
  if trimJs addition = [] then existing
  else if trimJs existing = [] then addition
  else if htmlTagTest existing || htmlTagTest addition then
    toHtmlSegment sanitize existing ++ toHtmlSegment sanitize addition
  else existing ++ 10 :: addition

/-- The line loop of `dedupePlainTextLines`: keep each trimmed nonblank
line the first time its trimmed form is seen. -/
def dedupeLinesGo : List (List Nat) → List (List Nat) → List (List Nat)
  | [], _ => []
  | line :: rest, seen =>
    if trimJs line = [] then dedupeLinesGo rest seen
    else if seen.contains (trimJs line) then dedupeLinesGo rest seen
    else trimJs line :: dedupeLinesGo rest (trimJs line :: seen)

/-- `dedupePlainTextLines` of `workspaceCore.ts`.  The source splits on
`/\n+/`; splitting on single newlines differs from that only by blank
pieces, which the loop discards anyway. -/
def dedupePlainTextLines (value : List Nat) : List Nat :=
  List.intercalate [10] (dedupeLinesGo (value.splitOn 10) [])

/-- Collapse every run of three or more newlines to exactly two
(`replace(/\n{3,}/g, "\n\n")`); `k` counts the pending newline run. -/
def collapseNl3Go : List Nat → Nat → List Nat
  | [], k => List.replicate (min k 2) 10
  | c :: rest, k =>
    if c = 10 then collapseNl3Go rest (k + 1)
    else List.replicate (min k 2) 10 ++ c :: collapseNl3Go rest 0

/-- `htmlToPlainText` of `workspaceCore.ts` in the browser (`window`
defined): plain values pass through, markup goes to the DOM text
extraction `domText` followed by newline-run collapsing and a trim. -/
def htmlToPlainText (domText : List Nat → List Nat) (value : List Nat) : List Nat :=
  if trimJs value = [] then []
  else if ¬ htmlTagTest (trimJs value) then value
  else trimJs (collapseNl3Go (domText value) 0)

/-- The `replace(/\s+/g, " ").trim()` normalization applied to both sides
of the duplicate-suppression comparison. -/
def plainNorm (domText : List Nat → List Nat) (x : List Nat) : List Nat :=
  trimJs (collapseWs (htmlToPlainText domText x) false)

/-- JavaScript `String.prototype.includes`. -/
def includesJs (l pat : List Nat) : Bool := (indexOfSub pat l).isSome

/-- `mergeContentWithoutDuplication` of `workspaceCore.ts`; the early
returns become a single `if` chain. -/
def mergeContentWithoutDuplication (domText sanitize : List Nat → List Nat)
    (existing incoming : List Nat) : List Nat :=
  if trimJs incoming = [] then existing
  else if trimJs existing = [] then incoming
  else if plainNorm domText (trimJs existing) ≠ [] && plainNorm domText (trimJs incoming) ≠ [] &&
      (plainNorm domText (trimJs existing) = plainNorm domText (trimJs incoming) ||
        includesJs (plainNorm domText (trimJs existing)) (plainNorm domText (trimJs incoming))) then
    existing
  else if plainNorm domText (trimJs existing) ≠ [] && plainNorm domText (trimJs incoming) ≠ [] &&
      includesJs (plainNorm domText (trimJs incoming)) (plainNorm domText (trimJs existing)) then
    incoming
  else if trimJs existing = trimJs incoming ||
      includesJs (trimJs existing) (trimJs incoming) then
    existing
  else if includesJs (trimJs incoming) (trimJs existing) then
    incoming
  else if htmlTagTest existing || htmlTagTest incoming then
    appendBoardContent sanitize existing incoming
  else dedupePlainTextLines (appendBoardContent sanitize existing incoming)

example :
    mergeContentWithoutDuplication (fun l => l) (fun l => l) (jstr "a\nb") (jstr "b\nc") =
      jstr "a\nb\nc" := by decide

/-- Provenance tag of a section (`"ai" | "user" | "pinned"`). -/
inductive SectionSource
  | ai
  | user
  | pinned
deriving DecidableEq

/-- `BoardSection` of `types/workspace.ts`. -/
structure BoardSection where
  id : List Nat
  title : List Nat
  content : List Nat
  source : SectionSource
  isTyping : Option Bool := none
  lastUpdated : Nat
deriving DecidableEq

/-- The five action discriminators of `AgentBoardAction` (the client-side
`BoardAction` type annotation lists only the first four, but the values
reaching `applyBoardActions` come from the agent protocol, which includes
`set_template`). -/
inductive ActionKind
  | create_structure
  | update_section
  | append_section
  | clear_section
  | set_template
deriving DecidableEq

/-- `BoardAction`: one edit instruction. -/
structure BoardAction where
  action : ActionKind
  section_id : Option (List Nat) := none
  section_title : Option (List Nat) := none
  content : Option (List Nat) := none
  template_type : Option (List Nat) := none
deriving DecidableEq

/-- `BoardContent` of `types/workspace.ts`: an undo/redo snapshot. -/
structure BoardContent where
  sections : List BoardSection
  rawMarkdown : List Nat
deriving DecidableEq

/-- `getBoardContent` of `workspaceCore.ts`. -/
def getBoardContent (sections : List BoardSection) : BoardContent :=
  { sections := sections,
    rawMarkdown := List.intercalate (jstr "\n\n")
      (sections.map fun s => jstr "## " ++ s.title ++ jstr "\n\n" ++ s.content) }

/-- `normalizeTitleKey` inside `resolveSectionIndex`:
`trim().replace(/\s+/g, " ").toLowerCase()`. -/
def normalizeTitleKey (v : List Nat) : List Nat :=
  toLowerJs (collapseWs (trimJs v) false)

/-- The title fallback of `resolveSectionIndex` (runs when no identifier
is given, the identifier is empty, or no identifier matches). -/
def resolveSectionByTitle (sections : List BoardSection) (a : BoardAction) : Option Nat :=
  match a.section_title with
  | some t =>
    if t = [] then none
    else sections.findIdx? fun s => normalizeTitleKey s.title = normalizeTitleKey t
  | none => none

/-- `resolveSectionIndex` of `workspaceCore.ts` (`none` is the source's
`-1`); a truthiness check guards both the identifier and the title. -/
def resolveSectionIndex (sections : List BoardSection) (a : BoardAction) : Option Nat :=
  match a.section_id with
  | some sid =>
    if sid = [] then resolveSectionByTitle sections a
    else
      match sections.findIdx? (fun s => s.id = sid) with
      | some i => some i
      | none => resolveSectionByTitle sections a
  | none => resolveSectionByTitle sections a

/-- `isPlaceholderTitle` of `workspaceCore.ts`: blank, the default
document title, or `/^小节\s+\d+$/i`. -/
def isPlaceholderTitle (value : List Nat) : Bool :=
  trimJs value = [] || trimJs value = jstr "未命名标题" ||
    ((trimJs value).take 2 = jstr "小节" &&
      ((trimJs value).drop 2).takeWhile isWsJs ≠ [] &&
      ((trimJs value).drop 2).dropWhile isWsJs ≠ [] &&
      (((trimJs value).drop 2).dropWhile isWsJs).all isDigitJs)

/-- `/^主题[:：]\s*/i` stripping inside `pickAutoDocumentTitle`. -/
def stripTopicPrefix (l : List Nat) : List Nat :=
  match l with
  | a :: b :: c :: rest =>
    if [a, b] = jstr "主题" && (c = 58 || c = 65306) then rest.dropWhile isWsJs else l
  | _ => l

/-- `pickAutoDocumentTitle` of `workspaceCore.ts`: first non-placeholder
title after the lead section, else a label derived from the first nonblank
content line (topic prefix stripped, 24-character cap with an ellipsis).
The source splits the joined content on `/\n+/`; single-newline splitting
differs only by blank pieces, which `find(Boolean)` skips. -/
def pickAutoDocumentTitle (domText : List Nat → List Nat) (sections : List BoardSection) :
    List Nat :=
  match (sections.drop 1).find? (fun s => ¬ isPlaceholderTitle s.title) with
  | some s => trimJs s.title
  | none =>
    match ((List.intercalate [10] (sections.map fun s => htmlToPlainText domText s.content)).splitOn
        10 |>.map trimJs |>.find? (· ≠ [])) with
    | none => []
    | some firstLine =>
      if stripTopicPrefix firstLine = [] then []
      else if (stripTopicPrefix firstLine).length > 24 then
        (stripTopicPrefix firstLine).take 24 ++ [8230]
      else stripTopicPrefix firstLine

/-- `syncDocumentTitle` of `workspaceCore.ts`, with the source's
same-reference early returns made explicit: `none` means the input array
is returned unchanged (reference-equal), `some` is the fresh renamed
array. -/
def syncDocumentTitleOpt (domText : List Nat → List Nat) (now : Nat)
    (sections : List BoardSection) : Option (List BoardSection) :=
  match sections with
  | [] => none
  | first :: _ =>
    if ¬ isPlaceholderTitle first.title then none
    else if pickAutoDocumentTitle domText sections = [] ||
        pickAutoDocumentTitle domText sections = first.title then none
    else some (sections.set 0
      { first with
        title := pickAutoDocumentTitle domText sections,
        lastUpdated := now })

/-- The per-instruction `HTML_TAG_PATTERN.test(rawContent.trim()) ?
sanitizeHtml(rawContent) : rawContent` step of `applyBoardActions`. -/
def sanitizeActionContent (sanitize : List Nat → List Nat) (a : BoardAction) : List Nat :=
  if htmlTagTest (trimJs (a.content.getD [])) then sanitize (a.content.getD [])
  else a.content.getD []

/-- `action.section_title?.trim()`; `[]` plays the role of both
`undefined` and the empty string (both falsy, and never stored when
falsy). -/
def actionTitle (a : BoardAction) : List Nat :=
  match a.section_title with
  | some t => trimJs t
  | none => []

/-- One iteration of the `actions.forEach` loop of `applyBoardActions`.
`freshId` is the `makeId()` value used if a new section must be created
without an explicit identifier.  The out-of-bounds `get?` fallbacks are
unreachable because `resolveSectionIndex` only returns valid indices. -/
def applyBoardActionStep (domText sanitize : List Nat → List Nat) (now : Nat)
    (freshId : List Nat) (st : List BoardSection × Bool) (a : BoardAction) :
    List BoardSection × Bool :=
  match a.action with
  | ActionKind.create_structure =>
    if actionTitle a = [] then st
    else
      match resolveSectionIndex st.1 a with
      | some i =>
        match st.1.get? i with
        | some target =>
          if trimJs (sanitizeActionContent sanitize a) ≠ [] ∧ trimJs target.content = [] then
            (st.1.set i
              { target with
                content := sanitizeActionContent sanitize a,
                source := SectionSource.ai,
                lastUpdated := now },
              true)
          else st
        | none => st
      | none =>
        (st.1 ++
          [{ id := a.section_id.getD freshId,
             title := actionTitle a,
             content := sanitizeActionContent sanitize a,
             source := SectionSource.ai,
             lastUpdated := now }],
          true)
  | ActionKind.update_section =>
    match resolveSectionIndex st.1 a with
    | some i =>
      match st.1.get? i with
      | some target =>
        (st.1.set i
          { target with
            content := sanitizeActionContent sanitize a,
            source := SectionSource.ai,
            lastUpdated := now },
          true)
      | none => st
    | none =>
      if actionTitle a = [] then st
      else
        (st.1 ++
          [{ id := a.section_id.getD freshId,
             title := actionTitle a,
             content := sanitizeActionContent sanitize a,
             source := SectionSource.ai,
             lastUpdated := now }],
          true)
  | ActionKind.append_section =>
    if trimJs (sanitizeActionContent sanitize a) = [] then st
    else
      match resolveSectionIndex st.1 a with
      | some i =>
        match st.1.get? i with
        | some target =>
          if mergeContentWithoutDuplication domText sanitize target.content
              (sanitizeActionContent sanitize a) = target.content then st
          else
            (st.1.set i
              { target with
                content := mergeContentWithoutDuplication domText sanitize target.content
                  (sanitizeActionContent sanitize a),
                source := SectionSource.ai,
                lastUpdated := now },
              true)
        | none => st
      | none =>
        if actionTitle a = [] then st
        else
          (st.1 ++
            [{ id := a.section_id.getD freshId,
               title := actionTitle a,
               content := sanitizeActionContent sanitize a,
               source := SectionSource.ai,
               lastUpdated := now }],
            true)
  | ActionKind.clear_section =>
    match resolveSectionIndex st.1 a with
    | some i =>
      match st.1.get? i with
      | some target =>
        (st.1.set i
          { target with
            content := [],
            source := SectionSource.ai,
            lastUpdated := now },
          true)
      | none => st
    | none => st
  | ActionKind.set_template => st

/-- `applyBoardActions` of `workspaceCore.ts`: fold the per-action step
over the batch, then run the document-title post-pass; a fresh array from
the post-pass (`normalizedSections !== nextSections`) forces
`didChange`.  `genId k` is the `makeId()` result for the `k`-th action. -/
def applyBoardActions (domText sanitize : List Nat → List Nat) (genId : Nat → List Nat)
    (now : Nat) (sections : List BoardSection) (actions : List BoardAction) :
    List BoardSection × Bool :=
  if actions = [] then (sections, false)
  else
    match actions.enum.foldl
        (fun st p => applyBoardActionStep domText sanitize now (genId p.1) st p.2)
        (sections, false) with
    | (next, didChange) =>
      match syncDocumentTitleOpt domText now next with
      | some normalized => (normalized, true)
      | none => (next, didChange)

/-- `UNDO_STACK_LIMIT` of `workspaceCore.ts`. -/
def UNDO_STACK_LIMIT : Nat := 80

/-- The `next.length > UNDO_STACK_LIMIT ? next.slice(next.length -
UNDO_STACK_LIMIT) : next` cap. -/
def capToLimit (next : List BoardContent) : List BoardContent :=
  if next.length > UNDO_STACK_LIMIT then next.drop (next.length - UNDO_STACK_LIMIT) else next

/-- `pushUndoSnapshot` of `workspaceCore.ts`. -/
def pushUndoSnapshot (stack : List BoardContent) (snapshot : BoardContent) :
    List BoardContent :=
  match stack.getLast? with
  | some last =>
    if last.rawMarkdown = snapshot.rawMarkdown then stack
    else capToLimit (stack ++ [snapshot])
  | none => capToLimit (stack ++ [snapshot])

/-! ## The history compactor (`workspacePersistence.ts`) -/

/-- Message author role. -/
inductive ChatRole
  | user
  | assistant
deriving DecidableEq

/-- `AgentNextQuestion` of `types/workspace.ts`. -/
structure AgentNextQuestion where
  id : Option (List Nat) := none
  target : Option (List Nat) := none
  type : Option (List Nat) := none
  question : List Nat
  options : Option (List (List Nat)) := none
deriving DecidableEq

/-- `AgentMarginNote` of `types/workspace.ts`. -/
structure AgentMarginNote where
  anchor : Option (List Nat) := none
  comment : List Nat
  suggestion : Option (List Nat) := none
  dimension : Option (List Nat) := none
  accepted : Option Bool := none
  acceptedAt : Option Nat := none
deriving DecidableEq

/-- The rubric is an auxiliary pass-through payload that the compactor
copies verbatim (`rubric ?? null`), so its shape is opaque here (the spec
directs auxiliary response fields to be modelled as opaque pass-through
data). -/
abbrev AgentRubric : Type := Unit

/-- `ChatMessage` of `types/workspace.ts`; `none` at `rubric` stands for
both `undefined` and `null` (the compactor maps the former to the
latter, and nothing else distinguishes them). -/
structure ChatMessage where
  id : List Nat
  role : ChatRole
  content : List Nat
  timestamp : Nat
  boardActions : Option (List BoardAction) := none
  nextQuestions : Option (List AgentNextQuestion) := none
  rubric : Option AgentRubric := none
  marginNotes : Option (List AgentMarginNote) := none
deriving DecidableEq

/-- `ErrorState` error kinds. -/
inductive ErrKind
  | timeout
  | network
  | api_error
  | parse
deriving DecidableEq

/-- `ErrorState` of `types/workspace.ts`. -/
structure ErrorState where
  hasError : Bool
  errorType : Option ErrKind
  message : List Nat
  retryCount : Nat
  lastErrorTime : Nat
  isOfflineMode : Bool
deriving DecidableEq

/-- `PersistedWorkspaceState` of `workspacePersistence.ts`. -/
structure PersistedWorkspaceState where
  sessionId : List Nat
  chatMessages : List ChatMessage
  boardSections : List BoardSection
  undoStack : List BoardContent
  redoStack : List BoardContent
  errorState : ErrorState
deriving DecidableEq

/-- The three retention profiles (the spec's "full"/"reduced"/"minimal"
are the source's `"normal"`/`"aggressive"`/`"minimal"`). -/
inductive CompactProfile
  | normal
  | aggressive
  | minimal
deriving DecidableEq

/-- `SnapshotLimits` of `workspacePersistence.ts`. -/
structure SnapshotLimits where
  chatMessages : Nat
  boardSections : Nat
  undoStack : Nat
  redoStack : Nat
  chatMessageChars : Nat
  boardSectionChars : Nat
  sectionTitleChars : Nat
deriving DecidableEq

/-- `PROFILE_LIMITS` of `workspacePersistence.ts`. -/
def PROFILE_LIMITS : CompactProfile → SnapshotLimits
  | CompactProfile.normal =>
    { chatMessages := 140,
      boardSections := 40,
      undoStack := 50,
      redoStack := 25,
      chatMessageChars := 2800,
      boardSectionChars := 9000,
      sectionTitleChars := 140 }
  | CompactProfile.aggressive =>
    { chatMessages := 80,
      boardSections := 24,
      undoStack := 24,
      redoStack := 12,
      chatMessageChars := 1600,
      boardSectionChars := 5500,
      sectionTitleChars := 110 }
  | CompactProfile.minimal =>
    { chatMessages := 36,
      boardSections := 12,
      undoStack := 0,
      redoStack := 0,
      chatMessageChars := 900,
      boardSectionChars := 2800,
      sectionTitleChars := 80 }

/-- `clampText` of `workspacePersistence.ts` (`Math.max(0, limit - 16)`
is truncated subtraction here). -/
def clampText (value : List Nat) (limit : Nat) : List Nat :=
  if value.length ≤ limit then value else value.take (limit - 16) ++ jstr "…[truncated]"

/-- JavaScript `arr.slice(-n)`: the last `min n (arr.length)` elements,
except that `slice(-0)` is `slice(0)`, the whole array. -/
def jsSliceNeg {α : Type} (arr : List α) (n : Nat) : List α :=
  if n = 0 then arr else arr.drop (arr.length - n)

/-- `compactSections` of `workspacePersistence.ts`. -/
def compactSections (sections : List BoardSection) (limits : SnapshotLimits) :
    List BoardSection :=
  (jsSliceNeg sections limits.boardSections).map fun s =>
    { s with
      title := clampText s.title limits.sectionTitleChars,
      content := clampText s.content limits.boardSectionChars }

/-- `compactBoardContent` of `workspacePersistence.ts`. -/
def compactBoardContent (stack : List BoardContent) (limits : SnapshotLimits) :
    List BoardContent :=
  if limits.undoStack = 0 then []
  else
    (jsSliceNeg stack limits.undoStack).map fun entry =>
      { rawMarkdown := clampText entry.rawMarkdown (limits.boardSections * limits.boardSectionChars),
        sections := compactSections entry.sections limits }

/-- `compactChatMessages` of `workspacePersistence.ts`.  The truthiness
guards on `section_title`/`content`/`anchor`/`suggestion`/`dimension`
leave empty strings unchanged, which `clampText` does anyway. -/
def compactChatMessages (messages : List ChatMessage) (limits : SnapshotLimits) :
    List ChatMessage :=
  (jsSliceNeg messages limits.chatMessages).map fun m =>
    { m with
      content := clampText m.content limits.chatMessageChars,
      boardActions := m.boardActions.map fun bas =>
        (jsSliceNeg bas 4).map fun a =>
          { a with
            section_title := a.section_title.map fun t => clampText t limits.sectionTitleChars,
            content := a.content.map fun c => clampText c limits.boardSectionChars },
      nextQuestions := m.nextQuestions.map fun qs =>
        (qs.take 4).map fun q =>
          { q with
            question := clampText q.question 300,
            options := q.options.map fun os => (os.take 4).map fun o => clampText o 120 },
      rubric := m.rubric,
      marginNotes := m.marginNotes.map fun ns =>
        (ns.take 6).map fun note =>
          { note with
            anchor := note.anchor.map fun x => clampText x 120,
            comment := clampText note.comment 300,
            suggestion := note.suggestion.map fun x => clampText x 280,
            dimension := note.dimension.map fun x => clampText x 80 } }

/-- `compactPersistedSnapshot` of `workspacePersistence.ts`. -/
def compactPersistedSnapshot (snapshot : PersistedWorkspaceState)
    (profile : CompactProfile) : PersistedWorkspaceState :=
  { sessionId := snapshot.sessionId,
    chatMessages := compactChatMessages snapshot.chatMessages (PROFILE_LIMITS profile),
    boardSections := compactSections snapshot.boardSections (PROFILE_LIMITS profile),
    undoStack := compactBoardContent snapshot.undoStack (PROFILE_LIMITS profile),
    redoStack := compactBoardContent
      (jsSliceNeg snapshot.redoStack (PROFILE_LIMITS profile).redoStack)
      { PROFILE_LIMITS profile with undoStack := (PROFILE_LIMITS profile).redoStack },
    errorState := snapshot.errorState }

/-- `persistWorkspaceSnapshot` of `workspacePersistence.ts`.  The storage
oracle `writeOk` models `storage.setItem(key, JSON.stringify(payload))`
succeeding versus throwing; the `for`/`try`/`catch` over
`["normal", "aggressive", "minimal"]` is unrolled into this chain, and
`none` is the source's `"failed"`. -/
def persistWorkspaceSnapshot (writeOk : PersistedWorkspaceState → Bool)
    (snapshot : PersistedWorkspaceState) : Option CompactProfile :=
  if writeOk (compactPersistedSnapshot snapshot CompactProfile.normal) then
    some CompactProfile.normal
  else if writeOk (compactPersistedSnapshot snapshot CompactProfile.aggressive) then
    some CompactProfile.aggressive
  else if writeOk (compactPersistedSnapshot snapshot CompactProfile.minimal) then
    some CompactProfile.minimal
  else none

/-! ## The HTML-safety filter (`sanitizeHtml` in `utils`)

`sanitizeHtml` works on a browser DOM (`createHTMLDocument`, `innerHTML`
parse/serialize, `querySelectorAll`, `removeAttribute`).  The DOM is a
browser builtin, so it is modelled here as a node tree: the repository's
own logic — which tags are removed, which attributes are stripped — is
translated directly, and the parse of the one concrete input the claims
evaluate is given as an explicit tree. -/

mutual

/-- A parsed DOM node; the forest type is mutually inductive with it so
that the tree walks below are structurally recursive. -/
inductive HtmlNode
  | text (s : List Nat)
  | elem (tag : List Nat) (attrs : List (List Nat × List Nat)) (children : HtmlForest)

/-- A list of sibling DOM nodes. -/
inductive HtmlForest
  | nil
  | cons (n : HtmlNode) (rest : HtmlForest)

end

/-- `UNSAFE_TAGS` of the sanitizer. -/
def UNSAFE_TAGS : List (List Nat) :=
  [jstr "script", jstr "style", jstr "iframe", jstr "object", jstr "embed",
    jstr "link", jstr "meta", jstr "base", jstr "form"]

/-- `URL_ATTRS` of the sanitizer. -/
def URL_ATTRS : List (List Nat) :=
  [jstr "href", jstr "src", jstr "xlink:href", jstr "formaction"]

/-- `shouldStripUrl` of the sanitizer. -/
def shouldStripUrl (value : List Nat) : Bool :=
  (jstr "javascript:").isPrefixOf (toLowerJs (trimJs value)) ||
    (jstr "data:text/html").isPrefixOf (toLowerJs (trimJs value))

mutual

/-- Remove every element whose tag is unsafe, together with its subtree
(`querySelectorAll(tag).forEach(node => node.remove())`). -/
def removeUnsafeForest : HtmlForest → HtmlForest
  | HtmlForest.nil => HtmlForest.nil
  | HtmlForest.cons n rest => removeUnsafeAppend n (removeUnsafeForest rest)

/-- Keep or drop one node, prepending the result to `tail`. -/
def removeUnsafeAppend : HtmlNode → HtmlForest → HtmlForest
  | HtmlNode.text s, tail => HtmlForest.cons (HtmlNode.text s) tail
  | HtmlNode.elem tag attrs children, tail =>
    if UNSAFE_TAGS.contains tag then tail
    else HtmlForest.cons (HtmlNode.elem tag attrs (removeUnsafeForest children)) tail

end

/-- The attribute filter: drop `on*` handlers and unsafe URL values
(`name.startsWith("on")`, `URL_ATTRS.has(name) && shouldStripUrl(value)`). -/
def sanitizeAttrs (attrs : List (List Nat × List Nat)) : List (List Nat × List Nat) :=
  attrs.filter fun p =>
    ¬ ((jstr "on").isPrefixOf (toLowerJs p.1) ||
        (URL_ATTRS.contains (toLowerJs p.1) && shouldStripUrl p.2))

mutual

/-- Apply the attribute filter to every element
(`doc.body.querySelectorAll("*")`). -/
def sanitizeAttrsForest : HtmlForest → HtmlForest
  | HtmlForest.nil => HtmlForest.nil
  | HtmlForest.cons n rest => HtmlForest.cons (sanitizeAttrsNode n) (sanitizeAttrsForest rest)

def sanitizeAttrsNode : HtmlNode → HtmlNode
  | HtmlNode.text s => HtmlNode.text s
  | HtmlNode.elem tag attrs children =>
    HtmlNode.elem tag (sanitizeAttrs attrs) (sanitizeAttrsForest children)

end

mutual

/-- `innerHTML` serialization of the sanitized tree (modelled builtin). -/
def serializeHtmlForest : HtmlForest → List Nat
  | HtmlForest.nil => []
  | HtmlForest.cons n rest => serializeHtmlNode n ++ serializeHtmlForest rest

def serializeHtmlNode : HtmlNode → List Nat
  | HtmlNode.text s => s
  | HtmlNode.elem tag attrs children =>
    [60] ++ tag ++ (attrs.map fun p => [32] ++ p.1 ++ jstr "=\"" ++ p.2 ++ [34]).flatten ++
      [62] ++ serializeHtmlForest children ++ jstr "</" ++ tag ++ [62]

end

/-- The sanitizer pipeline on a parsed tree: remove unsafe elements, strip
unsafe attributes, serialize. -/
def sanitizeHtmlTree (tree : HtmlForest) : List Nat :=
  serializeHtmlForest (sanitizeAttrsForest (removeUnsafeForest tree))

/-- The concrete markup of the safety claim. -/
def c5Input : List Nat :=
  jstr "<p>hello</p><script>alert(1)</script><a href=\"javascript:alert(1)\" onclick=\"x()\">x</a>"

/-- Modelled from the spec: the browser's `innerHTML` parse of `c5Input`
(a builtin missing from the repository) yields this node tree. -/
def c5Tree : HtmlForest :=
  HtmlForest.cons (HtmlNode.elem (jstr "p") []
      (HtmlForest.cons (HtmlNode.text (jstr "hello")) HtmlForest.nil))
    (HtmlForest.cons (HtmlNode.elem (jstr "script") []
        (HtmlForest.cons (HtmlNode.text (jstr "alert(1)")) HtmlForest.nil))
      (HtmlForest.cons (HtmlNode.elem (jstr "a")
          [(jstr "href", jstr "javascript:alert(1)"), (jstr "onclick", jstr "x()")]
          (HtmlForest.cons (HtmlNode.text (jstr "x")) HtmlForest.nil))
        HtmlForest.nil))

/-- Modelled from the spec: the browser-backed `sanitizeHtml` evaluated
through the tree model at the claim's input; other inputs are untouched
markup this claim never stores. -/
def c5Sanitize : List Nat → List Nat :=
  fun l => if l = c5Input then sanitizeHtmlTree c5Tree else l

example : sanitizeHtmlTree c5Tree = jstr "<p>hello</p><a>x</a>" := by decide

/-! ## Supporting models and lemmas for the claims -/

mutual

/-- Modelled from the spec: the browser `textContent` extraction used by
`htmlToPlainText` on markup (a builtin missing from the repository) —
markup tags contribute no text, everything else passes through. -/
def domTextModel : List Nat → List Nat
  | [] => []
  | c :: rest => if c = 60 then domTextModelTag rest else c :: domTextModel rest

/-- Skip to the end of a tag while extracting text. -/
def domTextModelTag : List Nat → List Nat
  | [] => []
  | c :: rest => if c = 62 then domTextModel rest else domTextModelTag rest

end

/-- Modelled from the spec: on markup containing none of the unsafe
elements, event-handler attributes or unsafe URL values, the HTML-safety
filter leaves the serialized markup unchanged; the counterexample inputs
below contain none (and their instruction contents are plain text, so the
filter is not even invoked on them). -/
def benignSanitize : List Nat → List Nat := fun l => l

/-- No two adjacent stack entries have the same serialized form. -/
def adjacentDistinct : List BoardContent → Bool
  | [] => true
  | [_] => true
  | x :: y :: r => x.rawMarkdown ≠ y.rawMarkdown && adjacentDistinct (y :: r)

theorem adjacentDistinct_append_last (stack : List BoardContent) (snap : BoardContent)
    (h : adjacentDistinct stack = true)
    (hlast : ∀ last, stack.getLast? = some last → last.rawMarkdown ≠ snap.rawMarkdown) :
    adjacentDistinct (stack ++ [snap]) = true := by
  induction stack with
  | nil => rfl
  | cons x rest ih =>
    cases rest with
    | nil =>
      have := hlast x rfl
      simp [adjacentDistinct, this]
    | cons y r =>
      simp only [adjacentDistinct, Bool.and_eq_true, decide_eq_true_eq] at h
      have ih2 := ih h.2 (fun last hl => hlast last (by rw [List.getLast?_cons_cons]; exact hl))
      simp only [List.cons_append, adjacentDistinct, Bool.and_eq_true, decide_eq_true_eq]
      exact ⟨h.1, by simpa using ih2⟩

theorem adjacentDistinct_tail (x : BoardContent) (l : List BoardContent)
    (h : adjacentDistinct (x :: l) = true) : adjacentDistinct l = true := by
  cases l with
  | nil => rfl
  | cons y r =>
    simp only [adjacentDistinct, Bool.and_eq_true] at h
    exact h.2

theorem adjacentDistinct_drop (k : Nat) :
    ∀ l : List BoardContent, adjacentDistinct l = true →
      adjacentDistinct (l.drop k) = true := by
  induction k with
  | zero => intro l h; exact h
  | succ n ih =>
    intro l h
    cases l with
    | nil => rfl
    | cons x r =>
      rw [List.drop_succ_cons]
      exact ih r (adjacentDistinct_tail x r h)

theorem dedupeLinesGo_mem :
    ∀ (xs : List (List Nat)) (seen : List (List Nat)) (line : List Nat),
      line ∈ dedupeLinesGo xs seen ↔
        (line ∈ xs.map trimJs ∧ line ≠ [] ∧ line ∉ seen) := by
  intro xs
  induction xs with
  | nil => simp [dedupeLinesGo]
  | cons x rest ih =>
    intro seen line
    unfold dedupeLinesGo
    split_ifs with hblank hseen
    · rw [ih seen line]
      simp only [List.map_cons, List.mem_cons]
      constructor
      · intro ⟨h1, h2, h3⟩
        exact ⟨Or.inr h1, h2, h3⟩
      · intro ⟨h1, h2, h3⟩
        rcases h1 with h1 | h1
        · exact absurd (h1 ▸ hblank) h2
        · exact ⟨h1, h2, h3⟩
    · rw [ih seen line]
      simp only [List.map_cons, List.mem_cons]
      constructor
      · intro ⟨h1, h2, h3⟩
        exact ⟨Or.inr h1, h2, h3⟩
      · intro ⟨h1, h2, h3⟩
        rcases h1 with h1 | h1
        · subst h1
          exact absurd (List.mem_of_elem_eq_true hseen) h3
        · exact ⟨h1, h2, h3⟩
    · simp only [List.mem_cons, ih (trimJs x :: seen) line, List.map_cons]
      constructor
      · intro h
        rcases h with h | ⟨h1, h2, h3⟩
        · subst h
          refine ⟨Or.inl rfl, hblank, ?_⟩
          intro hmem
          exact hseen (List.elem_eq_true_of_mem hmem)
        · exact ⟨Or.inr h1, h2, fun hm => h3 (Or.inr hm)⟩
      · intro ⟨h1, h2, h3⟩
        rcases h1 with h1 | h1
        · exact Or.inl h1
        · by_cases hx : line = trimJs x
          · exact Or.inl hx
          · exact Or.inr ⟨h1, h2, by simp [hx, h3]⟩

theorem dedupeLinesGo_nodup :
    ∀ (xs : List (List Nat)) (seen : List (List Nat)),
      (dedupeLinesGo xs seen).Nodup := by
  intro xs
  induction xs with
  | nil => intro seen; simp [dedupeLinesGo]
  | cons x rest ih =>
    intro seen
    unfold dedupeLinesGo
    split_ifs with hblank hseen
    · exact ih seen
    · exact ih seen
    · refine List.Nodup.cons ?_ (ih (trimJs x :: seen))
      intro hmem
      exact ((dedupeLinesGo_mem rest (trimJs x :: seen) (trimJs x)).mp hmem).2.2
        (List.mem_cons_self _ _)

theorem includesJs_iff (l pat : List Nat) : includesJs l pat = true ↔ pat <:+: l := by
  unfold includesJs
  constructor
  · intro h
    cases hidx : indexOfSub pat l with
    | none => rw [hidx] at h; simp at h
    | some p =>
      obtain ⟨hocc, -⟩ := (indexOfSub_eq_some_iff pat l p).mp hidx
      obtain ⟨t, ht⟩ := hocc
      exact ⟨l.take p, t, by rw [List.append_assoc, ht, List.take_append_drop]⟩
  · intro ⟨s, t, hst⟩
    cases hidx : indexOfSub pat l with
    | some p => simp
    | none =>
      exfalso
      refine indexOfSub_eq_none_iff pat l hidx s.length ?_
      rw [← hst, List.append_assoc, List.drop_left]
      exact ⟨t, rfl⟩

theorem includesJs_refl (l : List Nat) : includesJs l l = true :=
  (includesJs_iff l l).mpr ⟨[], [], by simp⟩

theorem includesJs_antisymm {a b : List Nat} (h1 : includesJs a b = true)
    (h2 : includesJs b a = true) : a = b := by
  have i1 := (includesJs_iff a b).mp h1
  have i2 := (includesJs_iff b a).mp h2
  exact (i2.sublist.eq_of_length (Nat.le_antisymm i2.sublist.length_le i1.sublist.length_le)).symm
    ▸ rfl

/-- C10: compacting any snapshot under the lowest-retention `minimal`
profile always returns empty undo and redo stacks, because that profile's
undo-stack and redo-stack depth caps are zero. -/
theorem claim_C10_minimal_discards_history (s : PersistedWorkspaceState) :
    (compactPersistedSnapshot s CompactProfile.minimal).undoStack = [] ∧
    (compactPersistedSnapshot s CompactProfile.minimal).redoStack = [] ∧
    (PROFILE_LIMITS CompactProfile.minimal).undoStack = 0 ∧
    (PROFILE_LIMITS CompactProfile.minimal).redoStack = 0 :=
  ⟨rfl, rfl, rfl, rfl⟩

/-- The chat-message list retained by compaction is the most recent
`min cap length` messages. -/
theorem compactChatMessages_length (messages : List ChatMessage) (limits : SnapshotLimits)
    (h : limits.chatMessages ≠ 0) :
    (compactChatMessages messages limits).length =
      min limits.chatMessages messages.length := by
  unfold compactChatMessages jsSliceNeg
  rw [if_neg h]
  simp [List.length_drop]
  omega

/-- C4: `persistWorkspaceSnapshot` is total (it returns a value instead of
throwing), tries the three retention profiles in decreasing-retention
order returning the first whose write succeeds and `none` (the source's
`"failed"`) when all three fail; and with a storage that rejects any
payload retaining more than 80 chat messages, a 180-message snapshot is
persisted under the middle (`aggressive`, the spec's "reduced") profile. -/
theorem claim_C4_persist_profile_fallback :
    (∀ (writeOk : PersistedWorkspaceState → Bool) (s : PersistedWorkspaceState),
      (persistWorkspaceSnapshot writeOk s = some CompactProfile.normal ↔
        writeOk (compactPersistedSnapshot s CompactProfile.normal) = true) ∧
      (persistWorkspaceSnapshot writeOk s = some CompactProfile.aggressive ↔
        writeOk (compactPersistedSnapshot s CompactProfile.normal) = false ∧
        writeOk (compactPersistedSnapshot s CompactProfile.aggressive) = true) ∧
      (persistWorkspaceSnapshot writeOk s = some CompactProfile.minimal ↔
        writeOk (compactPersistedSnapshot s CompactProfile.normal) = false ∧
        writeOk (compactPersistedSnapshot s CompactProfile.aggressive) = false ∧
        writeOk (compactPersistedSnapshot s CompactProfile.minimal) = true) ∧
      (persistWorkspaceSnapshot writeOk s = none ↔
        writeOk (compactPersistedSnapshot s CompactProfile.normal) = false ∧
        writeOk (compactPersistedSnapshot s CompactProfile.aggressive) = false ∧
        writeOk (compactPersistedSnapshot s CompactProfile.minimal) = false)) ∧
    persistWorkspaceSnapshot
      (fun payload => decide (payload.chatMessages.length ≤ 80))
      { sessionId := [],
        chatMessages := List.replicate 180
          { id := [], role := ChatRole.user, content := [], timestamp := 0 },
        boardSections := [],
        undoStack := [],
        redoStack := [],
        errorState :=
          { hasError := false, errorType := none, message := [], retryCount := 0,
            lastErrorTime := 0, isOfflineMode := false } } =
      some CompactProfile.aggressive := by
  constructor
  · intro writeOk s
    cases hn : writeOk (compactPersistedSnapshot s CompactProfile.normal) <;>
      cases ha : writeOk (compactPersistedSnapshot s CompactProfile.aggressive) <;>
      cases hm : writeOk (compactPersistedSnapshot s CompactProfile.minimal) <;>
      simp [persistWorkspaceSnapshot, hn, ha, hm]
  · have hnorm : (compactPersistedSnapshot
        { sessionId := [],
          chatMessages := List.replicate 180
            { id := [], role := ChatRole.user, content := [], timestamp := 0 },
          boardSections := [],
          undoStack := [],
          redoStack := [],
          errorState :=
            { hasError := false, errorType := none, message := [], retryCount := 0,
              lastErrorTime := 0, isOfflineMode := false } }
        CompactProfile.normal).chatMessages.length = 140 := by
      simp only [compactPersistedSnapshot]
      rw [compactChatMessages_length _ _ (by decide), List.length_replicate]
      decide
    have hagg : (compactPersistedSnapshot
        { sessionId := [],
          chatMessages := List.replicate 180
            { id := [], role := ChatRole.user, content := [], timestamp := 0 },
          boardSections := [],
          undoStack := [],
          redoStack := [],
          errorState :=
            { hasError := false, errorType := none, message := [], retryCount := 0,
              lastErrorTime := 0, isOfflineMode := false } }
        CompactProfile.aggressive).chatMessages.length = 80 := by
      simp only [compactPersistedSnapshot]
      rw [compactChatMessages_length _ _ (by decide), List.length_replicate]
      decide
    have c1 : (fun payload : PersistedWorkspaceState =>
        decide (payload.chatMessages.length ≤ 80))
        (compactPersistedSnapshot
          { sessionId := [],
            chatMessages := List.replicate 180
              { id := [], role := ChatRole.user, content := [], timestamp := 0 },
            boardSections := [],
            undoStack := [],
            redoStack := [],
            errorState :=
              { hasError := false, errorType := none, message := [], retryCount := 0,
                lastErrorTime := 0, isOfflineMode := false } }
          CompactProfile.normal) = false := by
      show decide _ = false
      rw [hnorm]
      decide
    have c2 : (fun payload : PersistedWorkspaceState =>
        decide (payload.chatMessages.length ≤ 80))
        (compactPersistedSnapshot
          { sessionId := [],
            chatMessages := List.replicate 180
              { id := [], role := ChatRole.user, content := [], timestamp := 0 },
            boardSections := [],
            undoStack := [],
            redoStack := [],
            errorState :=
              { hasError := false, errorType := none, message := [], retryCount := 0,
                lastErrorTime := 0, isOfflineMode := false } }
          CompactProfile.aggressive) = true := by
      show decide _ = true
      rw [hagg]
      decide
    simp only [persistWorkspaceSnapshot, c1, c2]
    rfl

/-- C2 counterexample: compacting a stack of two content-identical
adjacent entries under the `normal` profile (undo cap 50) keeps both; a
dedup-then-cap compaction would have kept one. -/
theorem claim_C2_counterexample :
    compactBoardContent
        [{ sections := [], rawMarkdown := jstr "x" },
          { sections := [], rawMarkdown := jstr "x" }]
        (PROFILE_LIMITS CompactProfile.normal) =
      [{ sections := [], rawMarkdown := jstr "x" },
        { sections := [], rawMarkdown := jstr "x" }] ∧
    compactBoardContent
        [{ sections := [], rawMarkdown := jstr "x" },
          { sections := [], rawMarkdown := jstr "x" }]
        (PROFILE_LIMITS CompactProfile.normal) ≠
      [{ sections := [], rawMarkdown := jstr "x" }] := by
  decide

theorem compactBoardContent_length (stack : List BoardContent) (limits : SnapshotLimits)
    (h : limits.undoStack ≠ 0) :
    (compactBoardContent stack limits).length = min limits.undoStack stack.length := by
  unfold compactBoardContent jsSliceNeg
  rw [if_neg h, if_neg h]
  simp [List.length_drop]
  omega

/-- C2 (amended): compacting a stack retains exactly the most recent
entries up to the profile's depth cap (oldest dropped first), each with
its texts clamped, and performs no adjacent deduplication (the entry
count is `min cap length` regardless of the entries' contents);
deduplication against the immediate predecessor happens only at push
time (`pushUndoSnapshot`, claim C8).  The redo stack is capped by its own
depth the same way. -/
theorem claim_C2_compaction_keeps_recent_no_dedup (stack : List BoardContent)
    (limits : SnapshotLimits) (s : PersistedWorkspaceState) (profile : CompactProfile) :
    (limits.undoStack = 0 → compactBoardContent stack limits = []) ∧
    (limits.undoStack ≠ 0 →
      (compactBoardContent stack limits).length = min limits.undoStack stack.length ∧
      ∀ i : Nat,
        (compactBoardContent stack limits).get? i =
          (stack.get? (stack.length - limits.undoStack + i)).map fun e =>
            { rawMarkdown :=
                clampText e.rawMarkdown (limits.boardSections * limits.boardSectionChars),
              sections := compactSections e.sections limits }) ∧
    ((PROFILE_LIMITS profile).redoStack ≠ 0 →
      ((compactPersistedSnapshot s profile).redoStack).length =
        min (PROFILE_LIMITS profile).redoStack s.redoStack.length) := by
  refine ⟨?_, ?_, ?_⟩
  · intro h0
    unfold compactBoardContent
    rw [if_pos h0]
  · intro h0
    refine ⟨compactBoardContent_length stack limits h0, ?_⟩
    intro i
    unfold compactBoardContent jsSliceNeg
    rw [if_neg h0, if_neg h0]
    rw [List.get?_map, List.get?_drop]
  · intro h0
    show (compactBoardContent (jsSliceNeg s.redoStack (PROFILE_LIMITS profile).redoStack)
      { PROFILE_LIMITS profile with undoStack := (PROFILE_LIMITS profile).redoStack }).length = _
    rw [compactBoardContent_length _ _ h0]
    show min (PROFILE_LIMITS profile).redoStack
      (jsSliceNeg s.redoStack (PROFILE_LIMITS profile).redoStack).length = _
    unfold jsSliceNeg
    rw [if_neg h0]
    simp [List.length_drop]
    omega

theorem capToLimit_eq_drop (next : List BoardContent) :
    capToLimit next = next.drop (next.length - UNDO_STACK_LIMIT) := by
  unfold capToLimit
  split_ifs with h
  · rfl
  · have : next.length - UNDO_STACK_LIMIT = 0 := by
      unfold UNDO_STACK_LIMIT at *
      omega
    rw [this, List.drop_zero]

/-- C8: `pushUndoSnapshot` returns the stack unchanged when the snapshot's
serialized form equals the current top entry's; otherwise it returns the
most recent `min (length + 1) 80` entries of the stack-plus-snapshot in
oldest-first order (so the result never exceeds 80 entries beyond what the
input already had), and pushing preserves the
no-two-adjacent-content-identical invariant. -/
theorem claim_C8_pushUndoSnapshot_dedup_and_cap (stack : List BoardContent)
    (snap : BoardContent) :
    ((∃ last, stack.getLast? = some last ∧ last.rawMarkdown = snap.rawMarkdown) →
      pushUndoSnapshot stack snap = stack) ∧
    ((∀ last, stack.getLast? = some last → last.rawMarkdown ≠ snap.rawMarkdown) →
      pushUndoSnapshot stack snap =
        (stack ++ [snap]).drop (stack.length + 1 - UNDO_STACK_LIMIT) ∧
      (pushUndoSnapshot stack snap).length = min (stack.length + 1) UNDO_STACK_LIMIT) ∧
    (adjacentDistinct stack = true → adjacentDistinct (pushUndoSnapshot stack snap) = true) ∧
    (pushUndoSnapshot stack snap).length ≤ max stack.length UNDO_STACK_LIMIT := by
  have hsl : (stack ++ [snap]).length = stack.length + 1 := by simp
  have hcap : capToLimit (stack ++ [snap]) =
      (stack ++ [snap]).drop (stack.length + 1 - UNDO_STACK_LIMIT) := by
    rw [capToLimit_eq_drop, hsl]
  have hcaplen : (capToLimit (stack ++ [snap])).length =
      min (stack.length + 1) UNDO_STACK_LIMIT := by
    rw [hcap, List.length_drop, hsl]
    unfold UNDO_STACK_LIMIT
    omega
  refine ⟨?_, ?_, ?_, ?_⟩
  · intro ⟨last, hl, heq⟩
    unfold pushUndoSnapshot
    rw [hl]
    show (if last.rawMarkdown = snap.rawMarkdown then stack
      else capToLimit (stack ++ [snap])) = _
    rw [if_pos heq]
  · intro hne
    unfold pushUndoSnapshot
    cases hl : stack.getLast? with
    | none => exact ⟨hcap, hcaplen⟩
    | some last =>
      show (if last.rawMarkdown = snap.rawMarkdown then stack
        else capToLimit (stack ++ [snap])) = _ ∧
        (if last.rawMarkdown = snap.rawMarkdown then stack
          else capToLimit (stack ++ [snap])).length = _
      rw [if_neg (hne last hl)]
      exact ⟨hcap, hcaplen⟩
  · intro hadj
    unfold pushUndoSnapshot
    cases hl : stack.getLast? with
    | none =>
      rw [hcap]
      exact adjacentDistinct_drop _ _
        (adjacentDistinct_append_last stack snap hadj
          (fun last hcon => by rw [hl] at hcon; exact absurd hcon (by simp)))
    | some last =>
      show adjacentDistinct (if last.rawMarkdown = snap.rawMarkdown then stack
        else capToLimit (stack ++ [snap])) = true
      by_cases heq : last.rawMarkdown = snap.rawMarkdown
      · rw [if_pos heq]
        exact hadj
      · rw [if_neg heq, hcap]
        refine adjacentDistinct_drop _ _
          (adjacentDistinct_append_last stack snap hadj ?_)
        intro l2 hl2
        rw [hl] at hl2
        cases hl2
        exact heq
  · unfold pushUndoSnapshot
    cases hl : stack.getLast? with
    | none =>
      rw [hcaplen]
      unfold UNDO_STACK_LIMIT
      omega
    | some last =>
      show (if last.rawMarkdown = snap.rawMarkdown then stack
        else capToLimit (stack ++ [snap])).length ≤ _
      by_cases heq : last.rawMarkdown = snap.rawMarkdown
      · rw [if_pos heq]
        omega
      · rw [if_neg heq, hcaplen]
        unfold UNDO_STACK_LIMIT
        omega

/-- C6: a create-section instruction that resolves to an existing section
fills that section's content only when the section's current content is
blank (and the incoming content is nonblank), and never overwrites
nonblank content; when it resolves to no section and carries a nonblank
title, a new section with that (trimmed) title and agent provenance is
appended at the end of the section list. -/
theorem claim_C6_create_structure_fills_only_blank
    (domText sanitize : List Nat → List Nat) (now : Nat) (freshId : List Nat)
    (secs : List BoardSection) (flag : Bool) (a : BoardAction)
    (ha : a.action = ActionKind.create_structure) :
    (actionTitle a = [] →
      applyBoardActionStep domText sanitize now freshId (secs, flag) a = (secs, flag)) ∧
    (∀ i target, resolveSectionIndex secs a = some i → secs.get? i = some target →
      trimJs target.content ≠ [] →
      applyBoardActionStep domText sanitize now freshId (secs, flag) a = (secs, flag)) ∧
    (∀ i target, actionTitle a ≠ [] → resolveSectionIndex secs a = some i →
      secs.get? i = some target → trimJs target.content = [] →
      trimJs (sanitizeActionContent sanitize a) ≠ [] →
      applyBoardActionStep domText sanitize now freshId (secs, flag) a =
        (secs.set i
          { target with
            content := sanitizeActionContent sanitize a,
            source := SectionSource.ai,
            lastUpdated := now },
          true)) ∧
    (actionTitle a ≠ [] → resolveSectionIndex secs a = none →
      applyBoardActionStep domText sanitize now freshId (secs, flag) a =
        (secs ++
          [{ id := a.section_id.getD freshId,
             title := actionTitle a,
             content := sanitizeActionContent sanitize a,
             source := SectionSource.ai,
             lastUpdated := now }],
          true)) := by
  refine ⟨?_, ?_, ?_, ?_⟩
  · intro ht
    simp [applyBoardActionStep, ha, ht]
  · intro i target hres htar hnb
    by_cases ht : actionTitle a = []
    · simp [applyBoardActionStep, ha, ht]
    · simp only [applyBoardActionStep, ha, if_neg ht, hres, htar]
      rw [if_neg]
      intro hcond
      exact hnb hcond.2
  · intro i target ht hres htar hblank hinc
    simp only [applyBoardActionStep, ha, if_neg ht, hres, htar]
    rw [if_pos ⟨hinc, hblank⟩]
  · intro ht hres
    simp only [applyBoardActionStep, ha, if_neg ht, hres]

/-- C9 counterexample: a batch holding one switch-mode (`set_template`)
instruction leaves the section branches untouched, but the document-title
post-pass still promotes "Goals" over the placeholder lead title and
reports a change, so the sections are not returned unchanged and the batch
does not report `changed = false`. -/
theorem claim_C9_counterexample :
    applyBoardActions domTextModel benignSanitize (fun _ => []) 9
        [{ id := jstr "a", title := jstr "未命名标题", content := [],
           source := SectionSource.user, lastUpdated := 0 },
         { id := jstr "b", title := jstr "Goals", content := jstr "x",
           source := SectionSource.user, lastUpdated := 0 }]
        [{ action := ActionKind.set_template, template_type := some (jstr "table") }] =
      ([{ id := jstr "a", title := jstr "Goals", content := [],
          source := SectionSource.user, lastUpdated := 9 },
        { id := jstr "b", title := jstr "Goals", content := jstr "x",
          source := SectionSource.user, lastUpdated := 0 }], true) ∧
    applyBoardActions domTextModel benignSanitize (fun _ => []) 9
        [{ id := jstr "a", title := jstr "未命名标题", content := [],
           source := SectionSource.user, lastUpdated := 0 },
         { id := jstr "b", title := jstr "Goals", content := jstr "x",
           source := SectionSource.user, lastUpdated := 0 }]
        [{ action := ActionKind.set_template, template_type := some (jstr "table") }] ≠
      ([{ id := jstr "a", title := jstr "未命名标题", content := [],
          source := SectionSource.user, lastUpdated := 0 },
        { id := jstr "b", title := jstr "Goals", content := jstr "x",
          source := SectionSource.user, lastUpdated := 0 }], false) := by
  constructor
  · decide
  · decide

/-- C9 (amended): a batch consisting only of switch-mode (`set_template`)
instructions touches no section and reports `changed = false`, provided
the section list is a fixpoint of the document-title post-pass
(`syncDocumentTitleOpt` returns `none`); without that proviso the
post-pass may rename a placeholder lead title and report a change. -/
theorem claim_C9_set_template_only_no_change
    (domText sanitize : List Nat → List Nat) (genId : Nat → List Nat) (now : Nat)
    (sections : List BoardSection) (actions : List BoardAction)
    (hall : ∀ a ∈ actions, a.action = ActionKind.set_template)
    (hsync : syncDocumentTitleOpt domText now sections = none) :
    applyBoardActions domText sanitize genId now sections actions = (sections, false) := by
  have hstep : ∀ (fresh : List Nat) (st : List BoardSection × Bool) (a : BoardAction),
      a.action = ActionKind.set_template →
      applyBoardActionStep domText sanitize now fresh st a = st := by
    intro fresh st a ha
    simp [applyBoardActionStep, ha]
  have hfold : ∀ (ps : List (Nat × BoardAction)),
      (∀ p ∈ ps, p.2.action = ActionKind.set_template) →
      ps.foldl (fun st p => applyBoardActionStep domText sanitize now (genId p.1) st p.2)
        (sections, false) = (sections, false) := by
    intro ps
    induction ps with
    | nil => intro _; rfl
    | cons p rest ih =>
      intro hp
      rw [List.foldl_cons, hstep _ _ _ (hp p (by simp)), ih fun q hq => hp q (by simp [hq])]
  unfold applyBoardActions
  split_ifs with hemp
  · rfl
  · have henum : ∀ q ∈ actions.enum, q.2.action = ActionKind.set_template := by
      intro q hq
      exact hall q.2 (List.get?_mem (List.mem_enum_iff_get?.mp hq))
    rw [hfold actions.enum henum]
    show (match syncDocumentTitleOpt domText now sections with
          | some normalized => (normalized, true)
          | none => (sections, false)) = (sections, false)
    rw [hsync]

/-- C5: a resolved edit (`update_section`) instruction whose content is
markup stores exactly the output of the HTML-safety filter (here the
DOM-backed `sanitizeHtml`, passed as `sanitize`), and on the claim's
concrete payload the stored content keeps "hello" while `<script`,
`javascript:` and `onclick` are all gone (the filter removes the unsafe
elements, the `on*` handler attribute and the `javascript:` URL value). -/
theorem claim_C5_markup_sanitized_before_storage :
    (∀ (domText sanitize : List Nat → List Nat) (now : Nat) (freshId : List Nat)
        (secs : List BoardSection) (flag : Bool) (a : BoardAction) (i : Nat)
        (target : BoardSection),
      a.action = ActionKind.update_section →
      resolveSectionIndex secs a = some i →
      secs.get? i = some target →
      htmlTagTest (trimJs (a.content.getD [])) = true →
      applyBoardActionStep domText sanitize now freshId (secs, flag) a =
        (secs.set i
          { target with
            content := sanitize (a.content.getD []),
            source := SectionSource.ai,
            lastUpdated := now },
          true)) ∧
    applyBoardActions domTextModel c5Sanitize (fun _ => []) 3
        [{ id := jstr "s1", title := jstr "Title", content := [],
           source := SectionSource.user, lastUpdated := 0 }]
        [{ action := ActionKind.update_section, section_id := some (jstr "s1"),
           content := some c5Input }] =
      ([{ id := jstr "s1", title := jstr "Title", content := sanitizeHtmlTree c5Tree,
          source := SectionSource.ai, lastUpdated := 3 }], true) ∧
    includesJs (sanitizeHtmlTree c5Tree) (jstr "hello") = true ∧
    includesJs (sanitizeHtmlTree c5Tree) (jstr "<script") = false ∧
    includesJs (sanitizeHtmlTree c5Tree) (jstr "javascript:") = false ∧
    includesJs (sanitizeHtmlTree c5Tree) (jstr "onclick") = false := by
  refine ⟨?_, by decide, by decide, by decide, by decide, by decide⟩
  intro domText sanitize now freshId secs flag a i target ha hres htar hmarkup
  simp only [applyBoardActionStep, ha, hres, htar, sanitizeActionContent, hmarkup, if_pos]

/-- C3 counterexample: the existing content `<b></b>` has empty normalized
plain text, which is strictly contained in the incoming plain content
`b`'s, so the claim demands that the stored content become exactly `b`;
the code instead falls through to the raw-string checks, finds that
`<b></b>` contains `b` as a raw substring, keeps the section byte-for-byte
unchanged and reports no change. -/
theorem claim_C3_counterexample :
    plainNorm domTextModel (trimJs (jstr "<b></b>")) = [] ∧
    plainNorm domTextModel (trimJs (jstr "b")) = jstr "b" ∧
    applyBoardActions domTextModel benignSanitize (fun _ => []) 4
        [{ id := jstr "s1", title := jstr "T", content := jstr "<b></b>",
           source := SectionSource.user, lastUpdated := 0 }]
        [{ action := ActionKind.append_section, section_id := some (jstr "s1"),
           content := some (jstr "b") }] =
      ([{ id := jstr "s1", title := jstr "T", content := jstr "<b></b>",
          source := SectionSource.user, lastUpdated := 0 }], false) := by
  refine ⟨by decide, by decide, by decide⟩

set_option maxHeartbeats 1000000 in
/-- C3 (amended): for an append instruction resolving to an existing
section, when both normalized plain texts are nonempty the containment
rules of the claim hold — incoming contained in existing (or equal) is a
no-op that reports no change from the instruction, existing strictly
contained in incoming replaces the stored content with exactly the
incoming content; when additionally neither raw content contains the
other, the two are concatenated (with a newline separator for plain
content, segment-wise for markup) and, for non-markup content, lines are
trimmed and any line duplicating an already-present line is dropped.
When a normalized plain text is empty, raw containment decides instead
(see the counterexample). -/
theorem claim_C3_append_duplicate_suppression
    (domText sanitize : List Nat → List Nat) (now : Nat) (freshId : List Nat)
    (secs : List BoardSection) (flag : Bool) (a : BoardAction) (i : Nat)
    (target : BoardSection)
    (ha : a.action = ActionKind.append_section)
    (hres : resolveSectionIndex secs a = some i)
    (htar : secs.get? i = some target)
    (hcont : trimJs (sanitizeActionContent sanitize a) ≠ []) :
    (plainNorm domText (trimJs target.content) ≠ [] →
      plainNorm domText (trimJs (sanitizeActionContent sanitize a)) ≠ [] →
      includesJs (plainNorm domText (trimJs target.content))
        (plainNorm domText (trimJs (sanitizeActionContent sanitize a))) = true →
      applyBoardActionStep domText sanitize now freshId (secs, flag) a = (secs, flag)) ∧
    (plainNorm domText (trimJs target.content) ≠ [] →
      plainNorm domText (trimJs (sanitizeActionContent sanitize a)) ≠ [] →
      includesJs (plainNorm domText (trimJs (sanitizeActionContent sanitize a)))
        (plainNorm domText (trimJs target.content)) = true →
      plainNorm domText (trimJs target.content) ≠
        plainNorm domText (trimJs (sanitizeActionContent sanitize a)) →
      applyBoardActionStep domText sanitize now freshId (secs, flag) a =
        (secs.set i
          { target with
            content := sanitizeActionContent sanitize a,
            source := SectionSource.ai,
            lastUpdated := now },
          true)) ∧
    (plainNorm domText (trimJs target.content) ≠ [] →
      plainNorm domText (trimJs (sanitizeActionContent sanitize a)) ≠ [] →
      includesJs (plainNorm domText (trimJs target.content))
        (plainNorm domText (trimJs (sanitizeActionContent sanitize a))) = false →
      includesJs (plainNorm domText (trimJs (sanitizeActionContent sanitize a)))
        (plainNorm domText (trimJs target.content)) = false →
      includesJs (trimJs target.content) (trimJs (sanitizeActionContent sanitize a)) = false →
      includesJs (trimJs (sanitizeActionContent sanitize a)) (trimJs target.content) = false →
      mergeContentWithoutDuplication domText sanitize target.content
          (sanitizeActionContent sanitize a) =
        (if htmlTagTest target.content || htmlTagTest (sanitizeActionContent sanitize a) then
          appendBoardContent sanitize target.content (sanitizeActionContent sanitize a)
        else
          dedupePlainTextLines
            (appendBoardContent sanitize target.content (sanitizeActionContent sanitize a))) ∧
      (mergeContentWithoutDuplication domText sanitize target.content
          (sanitizeActionContent sanitize a) ≠ target.content →
        applyBoardActionStep domText sanitize now freshId (secs, flag) a =
          (secs.set i
            { target with
              content := mergeContentWithoutDuplication domText sanitize target.content
                (sanitizeActionContent sanitize a),
              source := SectionSource.ai,
              lastUpdated := now },
            true))) ∧
    (∀ v : List Nat,
      (dedupeLinesGo (v.splitOn 10) []).Nodup ∧
      ∀ line, line ∈ dedupeLinesGo (v.splitOn 10) [] ↔
        (line ∈ (v.splitOn 10).map trimJs ∧ line ≠ [])) := by
  have hblank : trimJs target.content = [] →
      plainNorm domText (trimJs target.content) = [] := by
    intro h
    rw [h]
    rfl
  refine ⟨?_, ?_, ?_, ?_⟩
  · intro hL hR hinc
    have hmerge : mergeContentWithoutDuplication domText sanitize target.content
        (sanitizeActionContent sanitize a) = target.content := by
      unfold mergeContentWithoutDuplication
      rw [if_neg hcont]
      by_cases hleft : trimJs target.content = []
      · exact absurd (hblank hleft) hL
      · rw [if_neg hleft, if_pos]
        simp [hL, hR, hinc]
    simp only [applyBoardActionStep, ha, hres, htar, if_neg hcont, hmerge]
    simp
  · intro hL hR hinc hne
    have hnotfirst : ¬ (plainNorm domText (trimJs target.content) =
        plainNorm domText (trimJs (sanitizeActionContent sanitize a)) ||
          includesJs (plainNorm domText (trimJs target.content))
            (plainNorm domText (trimJs (sanitizeActionContent sanitize a)))) = true := by
      simp only [Bool.or_eq_true, decide_eq_true_eq]
      rintro (h | h)
      · exact hne h
      · exact hne (includesJs_antisymm h hinc)
    have hmerge : mergeContentWithoutDuplication domText sanitize target.content
        (sanitizeActionContent sanitize a) = sanitizeActionContent sanitize a := by
      unfold mergeContentWithoutDuplication
      rw [if_neg hcont]
      by_cases hleft : trimJs target.content = []
      · rw [if_pos hleft]
      · rw [if_neg hleft, if_neg, if_pos]
        · simp [hL, hR, hinc]
        · simp only [Bool.and_eq_true, Bool.or_eq_true]
          intro hcond
          exact hnotfirst (by simpa using hcond.2)
    have hdiff : sanitizeActionContent sanitize a ≠ target.content := by
      intro heq
      exact hne (by rw [heq])
    simp only [applyBoardActionStep, ha, hres, htar, if_neg hcont, hmerge]
    rw [if_neg hdiff]
  · intro hL hR h1 h2 h3 h4
    have hmerge : mergeContentWithoutDuplication domText sanitize target.content
        (sanitizeActionContent sanitize a) =
        (if htmlTagTest target.content || htmlTagTest (sanitizeActionContent sanitize a) then
          appendBoardContent sanitize target.content (sanitizeActionContent sanitize a)
        else
          dedupePlainTextLines
            (appendBoardContent sanitize target.content (sanitizeActionContent sanitize a))) := by
      unfold mergeContentWithoutDuplication
      rw [if_neg hcont]
      by_cases hleft : trimJs target.content = []
      · exact absurd (hblank hleft) hL
      · have hrneq : trimJs target.content ≠ trimJs (sanitizeActionContent sanitize a) := by
          intro heq
          have hx : includesJs (trimJs target.content)
              (trimJs (sanitizeActionContent sanitize a)) = true := by
            rw [heq]
            exact includesJs_refl _
          rw [hx] at h3
          exact absurd h3 (by simp)
        have hplneq : plainNorm domText (trimJs target.content) ≠
            plainNorm domText (trimJs (sanitizeActionContent sanitize a)) := by
          intro heq
          have hx : includesJs (plainNorm domText (trimJs target.content))
              (plainNorm domText (trimJs (sanitizeActionContent sanitize a))) = true := by
            rw [heq]
            exact includesJs_refl _
          rw [hx] at h1
          exact absurd h1 (by simp)
        rw [if_neg hleft, if_neg (by simp [h1, hplneq]), if_neg (by simp [h2]),
          if_neg (by simp [hrneq, h3]), if_neg (by simp [h4])]
    refine ⟨hmerge, ?_⟩
    intro hdiff
    simp only [applyBoardActionStep, ha, hres, htar, if_neg hcont]
    rw [if_neg hdiff]
  · intro v
    exact ⟨dedupeLinesGo_nodup (v.splitOn 10) [],
      fun line => by
        rw [dedupeLinesGo_mem (v.splitOn 10) [] line]
        simp⟩

/-- C1: the assistant-message extractor is monotone — for any two buffers
where one is a prefix of the other (in particular any two prefixes of a
final payload), the extracted text of the shorter is a string prefix of
the extracted text of the longer — and on a complete payload whose
`"assistant_message"` key first occurs right after `pre` and whose value
is the JSON encoding of `msg`, the extractor returns exactly the decoded
field value `msg`. -/
theorem claim_C1_assistant_message_monotone_complete :
    (∀ b1 b2 : List Nat, b1 <+: b2 →
      extractAssistantMessageFromJsonPrefix b1 <+: extractAssistantMessageFromJsonPrefix b2) ∧
    (∀ pre ws1 ws2 msg rest : List Nat,
      indexOfSub (jstr "\"assistant_message\"")
        ((pre ++ jstr "\"assistant_message\"") ++
          (ws1 ++ (58 :: (ws2 ++ (34 :: (encodeJsonString msg ++ (34 :: rest))))))) =
        some pre.length →
      (∀ c ∈ ws1, isWsJs c) → (∀ c ∈ ws2, isWsJs c) →
      extractAssistantMessageFromJsonPrefix
        ((pre ++ jstr "\"assistant_message\"") ++
          (ws1 ++ (58 :: (ws2 ++ (34 :: (encodeJsonString msg ++ (34 :: rest))))))) = msg) :=
  ⟨fun _ _ h => extractAssistantMessage_mono h,
   fun pre ws1 ws2 msg rest h1 h2 h3 =>
     extractAssistantMessage_complete pre ws1 ws2 msg rest h1 h2 h3⟩

theorem claim_C1_witness :
    (jstr "\x7b\"assistant_message\": \"He") <+: (jstr "\x7b\"assistant_message\": \"Hello") ∧
    extractAssistantMessageFromJsonPrefix (jstr "\x7b\"assistant_message\": \"He") <+:
      extractAssistantMessageFromJsonPrefix (jstr "\x7b\"assistant_message\": \"Hello") ∧
    extractAssistantMessageFromJsonPrefix
      ((jstr "\x7b" ++ jstr "\"assistant_message\"") ++
        ([] ++ (58 :: ([32] ++ (34 :: (encodeJsonString (jstr "Hi") ++ (34 :: jstr "\x7d"))))))) =
      jstr "Hi" :=
  ⟨by decide,
   claim_C1_assistant_message_monotone_complete.1 _ _ (by decide),
   claim_C1_assistant_message_monotone_complete.2 (jstr "\x7b") [] [32] (jstr "Hi") (jstr "\x7d")
     (by decide) (by decide) (by decide)⟩

/-- A board-action object carrying one of the five recognized action
discriminators. -/
def actionRecognizedB (a : BoardActionObj) : Bool :=
  match a.action with
  | some v => (normalizeAction v).isSome
  | none => false

/-- C7: the board-action extractor never aborts on malformed input: its
result is exactly the closed top-level snippets that parse to an object
with a string `action` (each snippet filtered independently, so a
rejected snippet drops nothing else), followed by the trailing open
object's best-effort partial action when the field loop recovers a
recognized `action` discriminator from it — and any such appended partial
action carries a recognized discriminator. -/
theorem claim_C7_extract_actions_skips_and_appends_partial
    (jp : List Nat → Option BoardActionObj) (l : List Nat) :
    extractBoardActionsFromJsonPrefix jp l =
      (boardActionsListStart l).elim []
        (fun rest2 =>
          (scanActionList rest2 false false 0 none).1.filterMap (keepParsedAction jp) ++
            (extractPartialActionFromObjectPrefix
                (scanActionList rest2 false false 0 none).2).elim [] (fun a => [a])) ∧
    ∀ s : List Nat,
      ((extractPartialActionFromObjectPrefix s).elim [] (fun a => [a])).all
        actionRecognizedB = true := by
  constructor
  · unfold extractBoardActionsFromJsonPrefix
    cases hb : boardActionsListStart l with
    | none => rfl
    | some rest2 =>
      simp only [Option.elim]
      cases hp : extractPartialActionFromObjectPrefix
          (scanActionList rest2 false false 0 none).2 with
      | some a =>
        rw [foldl_keep_eq_filterMap]
        simp
      | none =>
        rw [foldl_keep_eq_filterMap]
        simp
  · intro s
    cases hp : extractPartialActionFromObjectPrefix s with
    | none => rfl
    | some a =>
      simp only [Option.elim, List.all_cons, List.all_nil, Bool.and_true]
      obtain ⟨v, hv, hnorm⟩ := extractPartialAction_recognized hp
      unfold actionRecognizedB
      rw [hv]
      show (normalizeAction v).isSome = true
      rw [hnorm]
      rfl

theorem claim_C6_witness :
    applyBoardActionStep domTextModel benignSanitize 7 (jstr "f1") ([], false)
        { action := ActionKind.create_structure,
          section_title := some (jstr "Plan"),
          content := some (jstr "x") } =
      ([{ id := jstr "f1", title := jstr "Plan", content := jstr "x",
          source := SectionSource.ai, lastUpdated := 7 }], true) :=
  ((claim_C6_create_structure_fills_only_blank domTextModel benignSanitize 7 (jstr "f1")
      [] false
      { action := ActionKind.create_structure,
        section_title := some (jstr "Plan"),
        content := some (jstr "x") } rfl).2.2.2
    (by decide) (by decide)).trans (by decide)

theorem claim_C9_witness :
    applyBoardActions domTextModel benignSanitize (fun _ => []) 5
        [{ id := jstr "a", title := jstr "Intro", content := jstr "x",
           source := SectionSource.user, lastUpdated := 0 }]
        [{ action := ActionKind.set_template, template_type := some (jstr "table") }] =
      ([{ id := jstr "a", title := jstr "Intro", content := jstr "x",
          source := SectionSource.user, lastUpdated := 0 }], false) :=
  claim_C9_set_template_only_no_change domTextModel benignSanitize (fun _ => []) 5
    [{ id := jstr "a", title := jstr "Intro", content := jstr "x",
       source := SectionSource.user, lastUpdated := 0 }]
    [{ action := ActionKind.set_template, template_type := some (jstr "table") }]
    (by decide) (by decide)

theorem claim_C3_witness :
    applyBoardActionStep domTextModel benignSanitize 6 (jstr "f2")
        ([{ id := jstr "s1", title := jstr "T", content := jstr "hello world",
            source := SectionSource.user, lastUpdated := 0 }], false)
        { action := ActionKind.append_section, section_id := some (jstr "s1"),
          content := some (jstr "world") } =
      ([{ id := jstr "s1", title := jstr "T", content := jstr "hello world",
          source := SectionSource.user, lastUpdated := 0 }], false) :=
  (claim_C3_append_duplicate_suppression domTextModel benignSanitize 6 (jstr "f2")
      [{ id := jstr "s1", title := jstr "T", content := jstr "hello world",
         source := SectionSource.user, lastUpdated := 0 }] false
      { action := ActionKind.append_section, section_id := some (jstr "s1"),
        content := some (jstr "world") } 0
      { id := jstr "s1", title := jstr "T", content := jstr "hello world",
        source := SectionSource.user, lastUpdated := 0 }
      rfl (by decide) (by decide) (by decide)).1 (by decide) (by decide) (by decide)
